import Mathlib

/-!
Verification of the subagent task-delegation orchestrator
(`pack/extensions/subagent/index.ts`).

The embedding models the orchestrator as pure functions over an explicit
`World` state (session map, file system, spawn log).  Each subprocess run is
described by a `ProcEnv` value: the decoded stream events the child emitted,
its stderr text, its exit code, and whether the caller's cancellation signal
fired during the run.  The pull-based worker pool of
`mapWithConcurrencyLimit` is modelled as a small-step relation so that
claims quantifying over completion order can be stated over all schedules.
-/

namespace Subagent

/-! ### Data model -/

/-- Origin scope of an agent profile (`source` in `AgentConfig`); results may
also carry `"unknown"` when the profile was not found. -/
inductive AgentSource where
  | user
  | project
  | unknown
deriving DecidableEq, Repr

/-- Role of a streamed message (`msg.role`). -/
inductive Role where
  | user
  | assistant
  | toolResult
deriving DecidableEq, Repr

/-- One part of a message's `content` array: a text segment or a tool call. -/
inductive ContentPart where
  | text (s : String)
  | toolCall (name : String)
deriving DecidableEq, Repr

/-- Usage counters attached to an assistant message (`msg.usage`); `costTotal`
stands for `usage.cost?.total` (0 when absent) with money in integral
micro-units. -/
structure MsgUsage where
  input : Nat := 0
  output : Nat := 0
  cacheRead : Nat := 0
  cacheWrite : Nat := 0
  costTotal : Nat := 0
  totalTokens : Nat := 0
deriving DecidableEq, Repr

/-- A streamed message (`Message` from pi-ai), restricted to the fields the
orchestrator reads. -/
structure Message where
  role : Role
  content : List ContentPart := []
  usage : Option MsgUsage := none
  model : Option String := none
  stopReason : Option String := none
  errorMessage : Option String := none
deriving DecidableEq, Repr

/-- Accumulated usage of one invocation (`UsageStats`). -/
structure UsageStats where
  input : Nat := 0
  output : Nat := 0
  cacheRead : Nat := 0
  cacheWrite : Nat := 0
  cost : Nat := 0
  contextTokens : Nat := 0
  turns : Nat := 0
deriving DecidableEq, Repr

/-- Result of one subagent invocation (`SingleResult`). -/
structure SingleResult where
  agent : String
  agentSource : AgentSource
  task : String
  exitCode : Int
  completed : Bool
  messages : List Message
  stderr : String
  usage : UsageStats
  model : Option String := none
  stopReason : Option String := none
  errorMessage : Option String := none
  step : Option Nat := none
  sessionId : Option String := none
deriving DecidableEq, Repr

/-- A resolved agent profile (`AgentConfig` from `agents.ts`, as consumed by
the orchestrator). -/
structure AgentConfig where
  name : String
  source : AgentSource
  model : Option String := none
  thinkingLevel : Option String := none
  tools : List String := []
  systemPrompt : String := ""
deriving DecidableEq, Repr

/-- JavaScript truthiness of an optional string: present and non-empty. -/
def strTruthy (o : Option String) : Bool :=
  !((o.getD "") == "")

/-- JavaScript `a || b` on strings: `b` when `a` is empty. -/
def jsOr (a b : String) : String :=
  if a == "" then b else a

/-- First `text` part of a content list, if any (inner loop of
`getFinalOutput`). -/
def firstTextPart : List ContentPart → Option String
  | [] => none
  | .text s :: _ => some s
  | .toolCall _ :: ps => firstTextPart ps

/-- Backward scan of `getFinalOutput`: walk the reversed message list and
return the first text part of the first assistant message that has one. -/
def finalOutputRev : List Message → String
  | [] => ""
  | m :: rest =>
    if m.role = Role.assistant then
      match firstTextPart m.content with
      | some s => s
      | none => finalOutputRev rest
    else finalOutputRev rest

/-- `getFinalOutput(messages)`: iterate from the last message backwards; for
the first assistant message encountered that contains a text part, return
that message's first text part; otherwise the empty string. -/
def getFinalOutput (messages : List Message) : String :=
  finalOutputRev messages.reverse

/-! ### Stream events and result folding -/

/-- A decoded line of the child's stdout (result of `JSON.parse` plus the
`event.type` dispatch in `processLine`).  Lines whose parse fails never
produce an event; parsed events of any other shape are `otherEvent`. -/
inductive StreamEvent where
  | messageEnd (message : Message)
  | toolResultEnd (message : Message)
  | otherEvent
deriving DecidableEq, Repr

/-- Accrue one assistant message's usage into the running totals (the
`msg.role === "assistant"` branch of `processLine`). -/
def accrueUsage (u : UsageStats) (msg : Message) : UsageStats :=
  let u := { u with turns := u.turns + 1 }
  match msg.usage with
  | none => u
  | some mu =>
    { u with
      input := u.input + mu.input
      output := u.output + mu.output
      cacheRead := u.cacheRead + mu.cacheRead
      cacheWrite := u.cacheWrite + mu.cacheWrite
      cost := u.cost + mu.costTotal
      contextTokens := mu.totalTokens }

/-- Fold one accepted stream event into the running `SingleResult`
(`processLine`'s two event branches). -/
def applyEvent (r : SingleResult) : StreamEvent → SingleResult
  | .messageEnd msg =>
    let r := { r with messages := r.messages ++ [msg] }
    if msg.role = Role.assistant then
      { r with
        usage := accrueUsage r.usage msg
        model := if !(strTruthy r.model) && strTruthy msg.model then msg.model else r.model
        stopReason := if strTruthy msg.stopReason then msg.stopReason else r.stopReason
        errorMessage := if strTruthy msg.errorMessage then msg.errorMessage else r.errorMessage }
    else r
  | .toolResultEnd msg => { r with messages := r.messages ++ [msg] }
  | .otherEvent => r

/-! ### JavaScript string replacement (`task.replace(/\{previous\}/g, prev)`)

Strings are handled as their character lists.  `expandRepl` implements the
`GetSubstitution` step of `String.prototype.replace`: inside the replacement
string, `$$` yields `$`, `$&` the matched text, a dollar followed by a
backquote the text before the match, `$` followed by an apostrophe the text
after the match; every other `$`-sequence is literal (the pattern has no
capture groups). -/

/-- Dollar character. -/
def dollarChar : Char := Char.ofNat 36

/-- Ampersand character. -/
def ampChar : Char := Char.ofNat 38

/-- Backquote character. -/
def backtickChar : Char := Char.ofNat 96

/-- Apostrophe character. -/
def quoteChar : Char := Char.ofNat 39

/-- Expand the `$`-escapes of a JS replacement string, given the matched
text and the parts of the subject before and after the match. -/
def expandRepl (matched before after : List Char) : List Char → List Char
  | [] => []
  | [c] => [c]
  | c :: d :: rest =>
    if c = dollarChar then
      if d = dollarChar then dollarChar :: expandRepl matched before after rest
      else if d = ampChar then matched ++ expandRepl matched before after rest
      else if d = backtickChar then before ++ expandRepl matched before after rest
      else if d = quoteChar then after ++ expandRepl matched before after rest
      else c :: expandRepl matched before after (d :: rest)
    else c :: expandRepl matched before after (d :: rest)

/-- The literal pattern matched by `/\{previous\}/g`. -/
def prevPat : List Char := "\x7bprevious\x7d".toList

/-- Scanner for the global replace: `rest` is the unscanned suffix of the
subject `orig`, `i` its start position, and `skip` counts characters of an
already-emitted match still to be consumed (matches never overlap). -/
def replacePrevGo (repl orig : List Char) : List Char → Nat → Nat → List Char
  | [], _, _ => []
  | c :: rs, i, skip =>
    if skip > 0 then replacePrevGo repl orig rs (i + 1) (skip - 1)
    else if prevPat.isPrefixOf (c :: rs) then
      expandRepl prevPat (orig.take i) (orig.drop (i + prevPat.length)) repl
        ++ replacePrevGo repl orig rs (i + 1) (prevPat.length - 1)
    else c :: replacePrevGo repl orig rs (i + 1) 0

/-- `s.replace(/\{previous\}/g, repl)` with JavaScript semantics. -/
def replacePrevious (s repl : String) : String :=
  String.mk (replacePrevGo repl.toList s.toList s.toList 0 0)

/-- Plain textual substitution of `\x7bprevious\x7d` by `repl`, as the spec's
words describe it ("substituted with step i−1's final textual output"),
with no `$`-escape expansion.  Kept separate from `replacePrevious` so the
two can be compared. -/
def specReplacePrevGo (repl : List Char) : List Char → Nat → List Char
  | [], _ => []
  | c :: rs, skip =>
    if skip > 0 then specReplacePrevGo repl rs (skip - 1)
    else if prevPat.isPrefixOf (c :: rs) then
      repl ++ specReplacePrevGo repl rs (prevPat.length - 1)
    else c :: specReplacePrevGo repl rs 0

/-- Spec-side plain replacement of every `\x7bprevious\x7d` occurrence. -/
def specReplacePrevious (s repl : String) : String :=
  String.mk (specReplacePrevGo repl.toList s.toList 0)

/-- Last `text` part of a content list, if any. -/
def lastTextPart (ps : List ContentPart) : Option String :=
  firstTextPart ps.reverse

/-- The claim's reading of "final textual output": the last text part of the
last assistant message of the result (empty when absent).  Kept separate
from `getFinalOutput` so the two can be compared. -/
def specFinalOutput (messages : List Message) : String :=
  match (messages.filter (fun m => m.role == Role.assistant)).getLast? with
  | none => ""
  | some m => (lastTextPart m.content).getD ""

/-! ### File-name sanitisation (`name.replace(/[^\w.-]+/g, "_")`) -/

/-- Characters kept by the sanitiser: `\w`, dot and dash. -/
def isSafeChar (c : Char) : Bool :=
  (c.isAlphanum && c.toNat < 128) || c = '_' || c = '.' || c = '-'

/-- Scanner for the sanitiser; the flag records whether the previous
character was part of a replaced run. -/
def sanitizeGo : List Char → Bool → List Char
  | [], _ => []
  | c :: cs, inRun =>
    if isSafeChar c then c :: sanitizeGo cs false
    else if inRun then sanitizeGo cs true
    else '_' :: sanitizeGo cs true

/-- `agentName.replace(/[^\w.-]+/g, "_")`: each maximal run of unsafe
characters becomes a single underscore. -/
def sanitizeName (s : String) : String :=
  String.mk (sanitizeGo s.toList false)

/-! ### Sessions and world state -/

/-- A resumable subagent session (`SubagentSession`). -/
structure SubagentSession where
  id : String
  agent : String
  sessionFilePath : String
  promptTmpDir : Option String
  createdAt : Nat
  lastUsedAt : Nat
  inUse : Bool
deriving DecidableEq, Repr

/-- Orchestrator-visible world: the module-level session map (an
insertion-ordered association list, like a JS `Map`), the set of files on
disk, the id counters, the process id, the current clock value, and a log
of the tasks passed to spawned subprocesses. -/
structure World where
  sessions : List (String × SubagentSession) := []
  files : List String := []
  sessionCounter : Nat := 0
  tmpCounter : Nat := 0
  pid : Nat := 0
  now : Nat := 0
  spawns : List String := []
deriving DecidableEq, Repr

/-- The empty initial world. -/
def World.init : World := {}

/-- Look a key up in an association list (JS `Map.get`). -/
def lookupKey {α : Type} (m : List (String × α)) (id : String) : Option α :=
  (m.find? (fun p => p.1 == id)).map (·.2)

/-- Remove a key from an association list (JS `Map.delete`). -/
def eraseKey {α : Type} (m : List (String × α)) (id : String) : List (String × α) :=
  m.filter (fun p => p.1 != id)

/-- Update the value at a key, leaving other entries in place. -/
def updateKey {α : Type} (m : List (String × α)) (id : String) (f : α → α) :
    List (String × α) :=
  m.map (fun p => if p.1 == id then (p.1, f p.2) else p)

/-- Insert or overwrite a key (JS `Map.set`): an existing key keeps its
position, a new key is appended. -/
def setKey {α : Type} (m : List (String × α)) (id : String) (v : α) :
    List (String × α) :=
  if (m.find? (fun p => p.1 == id)).isSome then
    m.map (fun p => if p.1 == id then (p.1, v) else p)
  else m ++ [(id, v)]

/-- Session look-up (`subagentSessions.get(id)`). -/
def lookupSession (w : World) (id : String) : Option SubagentSession :=
  lookupKey w.sessions id

/-- Directory that holds session transcripts (`getSessionDir`). -/
def sessionDir : String := "/tmp/pi-subagent-sessions"

/-- Remove a single file path. -/
def rmFile (files : List String) (p : String) : List String :=
  files.filter (fun q => q != p)

/-- Remove a directory and everything under it (`fs.rmSync(dir,
{recursive: true})`). -/
def rmDirRecursive (files : List String) (dir : String) : List String :=
  files.filter (fun q => !(q == dir || (dir ++ "/").isPrefixOf q))

/-- `cleanupSession(id)`: delete the transcript file and any retained prompt
directory, then drop the map entry; a no-op for unknown ids. -/
def cleanupSession (id : String) (w : World) : World :=
  match lookupSession w id with
  | none => w
  | some s =>
    let files := rmFile w.files s.sessionFilePath
    let files :=
      match s.promptTmpDir with
      | some d => rmDirRecursive files d
      | none => files
    { w with files := files, sessions := eraseKey w.sessions id }

/-- Age ceiling for idle sessions (`SESSION_MAX_AGE_MS`). -/
def SESSION_MAX_AGE : Nat := 2 * 60 * 60 * 1000

/-- Count ceiling for retained sessions (`SESSION_MAX_COUNT`). -/
def SESSION_MAX_COUNT : Nat := 50

/-- While loop of the count-based phase of `evictOldSessions`: evict sorted
candidates while the map is still over the ceiling. -/
def sessionEvictLoop (w : World) : List (String × SubagentSession) → World
  | [] => w
  | (id, _) :: rest =>
    if w.sessions.length > SESSION_MAX_COUNT then
      sessionEvictLoop (cleanupSession id w) rest
    else w

/-- `evictOldSessions()`: sweep idle sessions past the age ceiling, then, if
still over the count ceiling, evict the least-recently-used sessions that
are not in use. -/
def evictOldSessions (w : World) : World :=
  let toDelete :=
    (w.sessions.filter
      (fun p => !p.2.inUse && decide (p.2.lastUsedAt + SESSION_MAX_AGE < w.now))).map (·.1)
  let w1 := toDelete.foldl (fun acc id => cleanupSession id acc) w
  if w1.sessions.length > SESSION_MAX_COUNT then
    sessionEvictLoop w1
      (List.insertionSort (fun a b => a.2.lastUsedAt ≤ b.2.lastUsedAt)
        (w1.sessions.filter (fun p => !p.2.inUse)))
  else w1

/-- Fresh session id (`sa-${pid}-${++sessionCounter}`); reads the counter
after the increment. -/
def generateSessionId (w : World) : String :=
  "sa-" ++ toString w.pid ++ "-" ++ toString (w.sessionCounter + 1)

/-- `createSession(agentName, promptTmpDir)`: allocate an id and transcript
path, insert the entry, then run the eviction sweep. -/
def createSession (agentName : String) (promptTmpDir : Option String) (w : World) :
    SubagentSession × World :=
  let id := generateSessionId w
  let w := { w with sessionCounter := w.sessionCounter + 1 }
  let s : SubagentSession :=
    { id
      agent := agentName
      sessionFilePath := sessionDir ++ "/" ++ id ++ "-" ++ sanitizeName agentName ++ ".jsonl"
      promptTmpDir
      createdAt := w.now
      lastUsedAt := w.now
      inUse := false }
  (s, evictOldSessions { w with sessions := setKey w.sessions id s })

/-- `writePromptToTempFile(agentName, prompt)`: create a fresh temporary
directory holding one prompt file; returns `(dir, filePath)`. -/
def writePromptToTempFile (agentName : String) (w : World) :
    (String × String) × World :=
  let dir := "/tmp/pi-subagent-" ++ toString (w.tmpCounter + 1)
  let filePath := dir ++ "/prompt-" ++ sanitizeName agentName ++ ".md"
  ((dir, filePath), { w with tmpCounter := w.tmpCounter + 1, files := w.files ++ [filePath] })

/-! ### One invocation (`runSingleAgent`) -/

/-- Behaviour of one spawned subprocess: the decoded events it streamed, its
captured stderr, its exit code, and whether the caller's abort signal fired
during the run. -/
structure ProcEnv where
  events : List StreamEvent := []
  stderrText : String := ""
  exitCode : Int := 0
  aborted : Bool := false
deriving DecidableEq, Repr

/-- Outcome of `runSingleAgent`: the returned result (or the thrown abort
error), the final world, the world as it stood while the subprocess ran
(`none` when no subprocess was spawned), and the id of the session the
invocation used, if any. -/
structure SingleOutcome where
  result : Except String SingleResult
  world : World
  during : Option World := none
  usedSession : Option String := none
deriving Repr

/-- Empty usage totals. -/
def zeroUsage : UsageStats := {}

/-- Synthetic failed result returned without spawning a subprocess. -/
def syntheticFailure (agentName : String) (source : AgentSource) (task : String)
    (stderr : String) (step : Option Nat) : SingleResult :=
  { agent := agentName
    agentSource := source
    task
    exitCode := 1
    completed := true
    messages := []
    stderr
    usage := zeroUsage
    step }

/-- Quoted list of known agent names (`Unknown agent` message tail). -/
def availableQuoted (agents : List AgentConfig) : String :=
  jsOr (String.intercalate ", " (agents.map (fun a => "\"" ++ a.name ++ "\""))) "none"

/-- Stderr text for an unknown session id. -/
def sessionNotFoundMsg (sid : String) : String :=
  "Session not found: \"" ++ sid ++ "\". It may have expired. Start a new session without sessionId."

/-- Stderr text for a session owned by a different agent. -/
def sessionWrongAgentMsg (sid owner requested : String) : String :=
  "Session \"" ++ sid ++ "\" belongs to agent \"" ++ owner ++ "\", not \"" ++ requested ++ "\"."

/-- Stderr text for a session already in use. -/
def sessionInUseMsg (sid : String) : String :=
  "Session \"" ++ sid ++ "\" is currently in use by another invocation. Wait for it to finish."

/-- Stderr text for a session whose transcript is gone from disk. -/
def sessionFileMissingMsg (sid : String) : String :=
  "Session file for \"" ++ sid ++ "\" no longer exists on disk. Start a new session without sessionId."

/-- Remove a retained temporary prompt directory, if any (the `finally`
block's cleanup of `tmpPromptDir`). -/
def rmTmpDir (d : Option String) (w : World) : World :=
  match d with
  | some dir => { w with files := rmDirRecursive w.files dir }
  | none => w

/-- Spawn-and-stream phase of `runSingleAgent`, entered once the profile and
session preconditions hold: mark the session in use, spawn the subprocess
(whose run writes the session transcript when a session is attached), fold
the streamed events into the result, then either throw the abort error --
evicting the session -- or return the finished result; the `finally` block
releases the in-use flag and removes a one-shot prompt directory. -/
def spawnPhase (agent : AgentConfig) (agentName task : String) (step : Option Nat)
    (session : Option SubagentSession) (tmpPromptDir : Option String)
    (env : ProcEnv) (w : World) : SingleOutcome :=
  let w1 :=
    match session with
    | some s => { w with sessions := updateKey w.sessions s.id (fun t => { t with inUse := true }) }
    | none => w
  let w2 := { w1 with spawns := w1.spawns ++ ["Task: " ++ task] }
  let w3 :=
    match session with
    | some s =>
      if w2.files.contains s.sessionFilePath then w2
      else { w2 with files := w2.files ++ [s.sessionFilePath] }
    | none => w2
  let base : SingleResult :=
    { agent := agentName
      agentSource := agent.source
      task
      exitCode := 0
      completed := false
      messages := []
      stderr := ""
      usage := zeroUsage
      model := agent.model
      step }
  let folded := env.events.foldl applyEvent base
  let finished :=
    { folded with
      stderr := folded.stderr ++ env.stderrText
      exitCode := env.exitCode
      completed := true }
  if env.aborted then
    let w4 := match session with | some s => cleanupSession s.id w3 | none => w3
    let w5 :=
      match session with
      | some s => { w4 with sessions := updateKey w4.sessions s.id (fun t => { t with inUse := false }) }
      | none => w4
    { result := .error "Subagent was aborted"
      world := rmTmpDir tmpPromptDir w5
      during := some w3
      usedSession := session.map (·.id) }
  else
    let w5 :=
      match session with
      | some s => { w3 with sessions := updateKey w3.sessions s.id (fun t => { t with inUse := false }) }
      | none => w3
    { result := .ok { finished with sessionId := session.map (·.id) }
      world := rmTmpDir tmpPromptDir w5
      during := some w3
      usedSession := session.map (·.id) }

/-- Newline character. -/
def nlChar : Char := Char.ofNat 10

/-- JS whitespace characters relevant to `trim()`. -/
def isJsSpace (c : Char) : Bool :=
  c = ' ' || c = Char.ofNat 9 || c = nlChar || c = Char.ofNat 13
    || c = Char.ofNat 11 || c = Char.ofNat 12

/-- JavaScript `s.trim()` over the characters, as used for the
`systemPrompt.trim()` truthiness test. -/
def jsTrim (s : String) : String :=
  String.mk (((s.toList.dropWhile isJsSpace).reverse.dropWhile isJsSpace).reverse)

/-- Prompt-file and session set-up for an invocation that holds no resumed
session, then the spawn phase.  `enableSession` selects between creating a
fresh resumable session (ownership of the prompt directory moves to it) and
a one-shot run. -/
def freshSpawn (agent : AgentConfig) (agentName task : String) (step : Option Nat)
    (enableSession : Bool) (env : ProcEnv) (w : World) : SingleOutcome :=
  if enableSession then
    if jsTrim agent.systemPrompt ≠ "" then
      let t := writePromptToTempFile agentName w
      let c := createSession agentName (some t.1.1) t.2
      spawnPhase agent agentName task step (some c.1) none env c.2
    else
      let c := createSession agentName none w
      spawnPhase agent agentName task step (some c.1) none env c.2
  else
    if jsTrim agent.systemPrompt ≠ "" then
      let t := writePromptToTempFile agentName w
      spawnPhase agent agentName task step none (some t.1.1) env t.2
    else
      spawnPhase agent agentName task step none none env w

/-- `runSingleAgent`: resolve the profile, validate or create the session,
then run the subprocess.  Unknown profiles and failed session preconditions
yield an immediate synthetic failed result with no subprocess spawned. -/
def runSingleAgent (agents : List AgentConfig) (agentName task : String)
    (step : Option Nat) (sessionId : Option String) (enableSession : Bool)
    (env : ProcEnv) (w : World) : SingleOutcome :=
  match agents.find? (fun a => a.name == agentName) with
  | none =>
    { result := .ok (syntheticFailure agentName .unknown task
        ("Unknown agent: \"" ++ agentName ++ "\". Available agents: "
          ++ availableQuoted agents ++ ".") step)
      world := w }
  | some agent =>
    match sessionId with
    | some sid =>
      match lookupSession w sid with
      | none =>
        { result := .ok (syntheticFailure agentName agent.source task
            (sessionNotFoundMsg sid) step)
          world := w }
      | some sess =>
        if sess.agent ≠ agentName then
          { result := .ok (syntheticFailure agentName agent.source task
              (sessionWrongAgentMsg sid sess.agent agentName) step)
            world := w }
        else if sess.inUse then
          { result := .ok (syntheticFailure agentName agent.source task
              (sessionInUseMsg sid) step)
            world := w }
        else if !(w.files.contains sess.sessionFilePath) then
          { result := .ok (syntheticFailure agentName agent.source task
              (sessionFileMissingMsg sid) step)
            world := cleanupSession sid w }
        else
          let touched := { sess with lastUsedAt := w.now }
          let w1 := { w with sessions := updateKey w.sessions sid (fun _ => touched) }
          spawnPhase agent agentName task step (some touched) none env w1
    | none => freshSpawn agent agentName task step enableSession env w

/-! ### Foreground execution (`runForegroundExecution`) -/

/-- One entry of a parallel `tasks` array. -/
structure TaskItem where
  agent : String
  task : String
deriving DecidableEq, Repr, Inhabited

/-- One entry of a `chain` array (task text may contain the placeholder). -/
structure ChainStep where
  agent : String
  task : String
deriving DecidableEq, Repr, Inhabited

/-- The caller-facing tool response: the single text content block, the
`details.results` array and the `isError` flag (absent means `false`). -/
structure ToolResponse where
  contentText : String
  results : List SingleResult
  isError : Bool := false
deriving DecidableEq, Repr

/-- Request parameters relevant to `runForegroundExecution`. -/
structure SubagentParams where
  agent : Option String := none
  task : Option String := none
  sessionId : Option String := none
  tasks : Option (List TaskItem) := none
  chain : Option (List ChainStep) := none
deriving Repr

/-- Ceiling on the number of parallel tasks (`MAX_PARALLEL_TASKS`). -/
def MAX_PARALLEL_TASKS : Nat := 8

/-- Concurrency ceiling of the parallel pool (`MAX_CONCURRENCY`). -/
def MAX_CONCURRENCY : Nat := 4

/-- Non-success test for a finished step or single run
(`result.exitCode !== 0 || result.stopReason === "error" || result.stopReason === "aborted"`). -/
def isErrorResult (r : SingleResult) : Bool :=
  r.exitCode != 0 || r.stopReason == some "error" || r.stopReason == some "aborted"

/-- Failure explanation chain
(`result.errorMessage || result.stderr || getFinalOutput(...) || "(no output)"`). -/
def failureExplanation (r : SingleResult) : String :=
  jsOr (r.errorMessage.getD "") (jsOr r.stderr (jsOr (getFinalOutput r.messages) "(no output)"))

/-- Chain loop: run the remaining steps, carrying the 1-based index of the
next step, the previous step's final output, the results so far, and the
world.  Stops at the first non-success step; a thrown abort propagates. -/
def runChainAux (agents : List AgentConfig) (envs : Nat → ProcEnv) :
    List ChainStep → Nat → String → List SingleResult → World →
    Except String ToolResponse × World
  | [], _, _, results, w =>
    (.ok
      { contentText :=
          jsOr (getFinalOutput (((results.getLast?).map (·.messages)).getD [])) "(no output)"
        results }, w)
  | step :: rest, i, previousOutput, results, w =>
    let taskWithContext := replacePrevious step.task previousOutput
    let out := runSingleAgent agents step.agent taskWithContext (some (i + 1)) none false (envs i) w
    match out.result with
    | .error e => (.error e, out.world)
    | .ok result =>
      let results := results ++ [result]
      if isErrorResult result then
        (.ok
          { contentText :=
              "Chain stopped at step " ++ toString (i + 1) ++ " (" ++ step.agent ++ "): "
                ++ failureExplanation result
            results
            isError := true }, out.world)
      else
        runChainAux agents envs rest (i + 1) (getFinalOutput result.messages) results out.world

/-- Chain branch of `runForegroundExecution`. -/
def runChain (agents : List AgentConfig) (chain : List ChainStep)
    (envs : Nat → ProcEnv) (w : World) : Except String ToolResponse × World :=
  runChainAux agents envs chain 0 "" [] w

/-- Run the parallel children, one per index; every child runs regardless of
its siblings' outcomes (a rejection is only recorded, as `Promise.all`
rejects while the remaining workers keep draining the queue). -/
def runParallelChildren (agents : List AgentConfig) (envs : Nat → ProcEnv) :
    List TaskItem → Nat → World → List (Except String SingleResult) × World
  | [], _, w => ([], w)
  | t :: rest, i, w =>
    let out := runSingleAgent agents t.agent t.task none none false (envs i) w
    let rec2 := runParallelChildren agents envs rest (i + 1) out.world
    (out.result :: rec2.1, rec2.2)

/-- Collect child outcomes: the first thrown error rejects the whole batch,
otherwise all results are returned in request order. -/
def collectResults : List (Except String SingleResult) → Except String (List SingleResult)
  | [] => .ok []
  | .error e :: _ => .error e
  | .ok r :: rest => (collectResults rest).map (fun rs => r :: rs)

/-- Preview used in per-item parallel summaries
(`output.slice(0, 100) + (output.length > 100 ? "..." : "")`). -/
def previewSlice (s : String) : String :=
  String.mk (s.toList.take 100) ++ (if s.toList.length > 100 then "..." else "")

/-- One per-item summary line of the parallel response. -/
def parallelSummary (r : SingleResult) : String :=
  "[" ++ r.agent ++ "] " ++ (if r.exitCode == 0 then "completed" else "failed") ++ ": "
    ++ jsOr (previewSlice (getFinalOutput r.messages)) "(no output)"

/-- Parallel branch of `runForegroundExecution`: reject oversized batches
before spawning anything, otherwise run all children and aggregate the
success count and per-item summaries; the response is not an error even if
children failed. -/
def runParallel (agents : List AgentConfig) (tasks : List TaskItem)
    (envs : Nat → ProcEnv) (w : World) : Except String ToolResponse × World :=
  if tasks.length > MAX_PARALLEL_TASKS then
    (.ok
      { contentText :=
          "Too many parallel tasks (" ++ toString tasks.length ++ "). Max is "
            ++ toString MAX_PARALLEL_TASKS ++ "."
        results := [] }, w)
  else
    let pc := runParallelChildren agents envs tasks 0 w
    match collectResults pc.1 with
    | .error e => (.error e, pc.2)
    | .ok results =>
      let successCount := (results.filter (fun r => r.exitCode == 0)).length
      (.ok
        { contentText :=
            "Parallel: " ++ toString successCount ++ "/" ++ toString results.length
              ++ " succeeded\n\n" ++ String.intercalate "\n\n" (results.map parallelSummary)
          results }, pc.2)

/-- Session-id tail of a single-mode response
(`result.sessionId ? "\n\n[sessionId: ...]" : ""`). -/
def sessionInfoText (r : SingleResult) : String :=
  match r.sessionId with
  | some sid => "\n\n[sessionId: " ++ sid ++ "]"
  | none => ""

/-- Single branch of `runForegroundExecution`. -/
def runSingleMode (agents : List AgentConfig) (agentName task : String)
    (sessionId : Option String) (envs : Nat → ProcEnv) (w : World) :
    Except String ToolResponse × World :=
  let out := runSingleAgent agents agentName task none sessionId true (envs 0) w
  match out.result with
  | .error e => (.error e, out.world)
  | .ok r =>
    if isErrorResult r then
      (.ok
        { contentText :=
            "Agent " ++ jsOr (r.stopReason.getD "") "failed" ++ ": "
              ++ failureExplanation r ++ sessionInfoText r
          results := [r]
          isError := true }, out.world)
    else
      (.ok
        { contentText := jsOr (getFinalOutput r.messages) "(no output)" ++ sessionInfoText r
          results := [r] }, out.world)

/-- Name-and-scope list used by the invalid-parameters message. -/
def sourceText : AgentSource → String
  | .user => "user"
  | .project => "project"
  | .unknown => "unknown"

/-- Agent list shown by the invalid-parameters fallback. -/
def availableWithSource (agents : List AgentConfig) : String :=
  jsOr (String.intercalate ", "
    (agents.map (fun a => a.name ++ " (" ++ sourceText a.source ++ ")"))) "none"

/-- `runForegroundExecution`: dispatch on the request shape -- chain when a
non-empty chain array is present, else parallel when a non-empty tasks
array is present, else single when both agent and task are non-empty
strings, else the invalid-parameters fallback. -/
def runForegroundExecution (agents : List AgentConfig) (params : SubagentParams)
    (envs : Nat → ProcEnv) (w : World) : Except String ToolResponse × World :=
  if (params.chain.getD []).length > 0 then
    runChain agents (params.chain.getD []) envs w
  else if (params.tasks.getD []).length > 0 then
    runParallel agents (params.tasks.getD []) envs w
  else if strTruthy params.agent && strTruthy params.task then
    runSingleMode agents (params.agent.getD "") (params.task.getD "") params.sessionId envs w
  else
    (.ok
      { contentText := "Invalid parameters. Available agents: " ++ availableWithSource agents
        results := [] }, w)

/-! ### Background job registry -/

/-- Status of a background job. -/
inductive JobStatus where
  | running
  | completed
  | failed
deriving DecidableEq, Repr

/-- A background job (`BackgroundJob`), restricted to the fields eviction
and querying read. -/
structure BackgroundJob where
  id : String
  status : JobStatus
  agent : String := ""
  task : String := ""
  startedAt : Nat := 0
  finishedAt : Option Nat := none
deriving DecidableEq, Repr

/-- The job registry map, insertion-ordered like a JS `Map`. -/
abbrev JobMap := List (String × BackgroundJob)

/-- Age ceiling for terminal jobs (`COMPLETED_JOB_MAX_AGE_MS`). -/
def COMPLETED_JOB_MAX_AGE : Nat := 60 * 60 * 1000

/-- Count ceiling for terminal jobs (`COMPLETED_JOB_MAX_COUNT`). -/
def COMPLETED_JOB_MAX_COUNT : Nat := 50

/-- Whether a terminal job is past the age ceiling
(`now - (finishedAt ?? startedAt) > COMPLETED_JOB_MAX_AGE_MS`). -/
def jobOverAge (now : Nat) (j : BackgroundJob) : Bool :=
  decide (j.finishedAt.getD j.startedAt + COMPLETED_JOB_MAX_AGE < now)

/-- Terminal (non-running) job filter used by both eviction phases. -/
def jobTerminal (p : String × BackgroundJob) : Bool :=
  p.2.status != JobStatus.running

/-- Sort terminal jobs oldest-first by finish time (`finishedAt ?? 0`);
`Array.prototype.sort` is stable, as is insertion sort. -/
def sortByFinish (l : JobMap) : JobMap :=
  List.insertionSort (fun a b => a.2.finishedAt.getD 0 ≤ b.2.finishedAt.getD 0) l

/-- While loop of the count-based phase of `evictOldJobs`: pop the sorted
snapshot while it is still longer than the ceiling, deleting each popped id
from the map. -/
def dropOldestJobs (m : JobMap) : JobMap → JobMap
  | [] => m
  | p :: rest =>
    if rest.length + 1 > COMPLETED_JOB_MAX_COUNT then
      dropOldestJobs (eraseKey m p.1) rest
    else m

/-- `evictOldJobs()`: drop terminal jobs past the age ceiling, then, if the
terminal jobs still exceed the count ceiling, drop the oldest of them by
finish time.  Running jobs are never candidates. -/
def evictOldJobs (now : Nat) (jobs : JobMap) : JobMap :=
  let completed := sortByFinish (jobs.filter jobTerminal)
  let jobs1 :=
    completed.foldl (fun m p => if jobOverAge now p.2 then eraseKey m p.1 else m) jobs
  dropOldestJobs jobs1 (sortByFinish (jobs1.filter jobTerminal))

/-- `clear` action of the `subagent_jobs` tool: delete every job that is not
running. -/
def clearJobs (jobs : JobMap) : JobMap :=
  jobs.filter (fun p => p.2.status == JobStatus.running)

/-! ### Streamed-line parsing (`proc.stdout.on("data")` / `proc.on("close")`)

The stdout handler appends each chunk to a pending buffer, splits on
newlines, keeps the final (possibly incomplete) piece as the new buffer and
hands every complete line to `processLine`; on close, a non-blank leftover
buffer is handed to `processLine` once more.  The per-line handler is kept
abstract (`h`), so the chunk-boundary results hold for any fold state --
in particular for the event-list fold `jsProcessLine`. -/

/-- A line is blank when `line.trim()` is empty. -/
def isBlankLine (l : List Char) : Bool :=
  l.all isJsSpace

/-- `s.split("\n")` on character lists; always returns at least one piece. -/
def splitNl : List Char → List (List Char)
  | [] => [[]]
  | c :: cs =>
    let r := splitNl cs
    if c = nlChar then [] :: r
    else
      match r with
      | [] => [[c]]
      | l :: ls => (c :: l) :: ls

/-- `processLine`, with the JSON decode-and-dispatch abstracted into `g`:
blank lines are skipped, undecodable lines are skipped, and a decoded line
appends one accepted event. -/
def jsProcessLine {ε : Type} (g : List Char → Option ε) (acc : List ε)
    (line : List Char) : List ε :=
  if isBlankLine line then acc
  else
    match g line with
    | none => acc
    | some e => acc ++ [e]

/-- One `data` callback: append the chunk to the buffer, split, keep the
last piece as the new buffer, fold the complete lines through `h`. -/
def feedChunk {σ : Type} (h : σ → List Char → σ) (st : σ × List Char)
    (chunk : List Char) : σ × List Char :=
  let parts := splitNl (st.2 ++ chunk)
  (parts.dropLast.foldl h st.1, (parts.getLast?).getD [])

/-- Character-at-a-time reformulation of the buffering: a newline hands the
buffer to `h`, any other character joins the buffer. -/
def feedChar {σ : Type} (h : σ → List Char → σ) (st : σ × List Char)
    (c : Char) : σ × List Char :=
  if c = nlChar then (h st.1 st.2, [])
  else (st.1, st.2 ++ [c])

/-- The `close` callback: a leftover buffer with non-blank trim is parsed as
one more line. -/
def closeStream {σ : Type} (h : σ → List Char → σ) (st : σ × List Char) : σ :=
  if isBlankLine st.2 then st.1 else h st.1 st.2

/-- Feed a sequence of stdout chunks from the initial state. -/
def runStream {σ : Type} (h : σ → List Char → σ) (s0 : σ)
    (chunks : List (List Char)) : σ × List Char :=
  chunks.foldl (feedChunk h) (s0, [])

/-- Feed a sequence of chunks, then close the stream. -/
def runStreamClosed {σ : Type} (h : σ → List Char → σ) (s0 : σ)
    (chunks : List (List Char)) : σ :=
  closeStream h (runStream h s0 chunks)

/-! ### The pull-based worker pool (`mapWithConcurrencyLimit`)

A fixed number of workers share a cursor; each worker atomically claims the
next index and writes its result into the slot of that index.  The relation
below ranges over every interleaving of claim and completion steps, so
theorems quantified over its runs hold regardless of completion order. -/

/-- State of the pool: the shared cursor, the claimed-but-unfinished
indices, and the results array (slots written in place). -/
structure PoolState (β : Type) where
  nextIndex : Nat
  active : List Nat
  results : List (Option β)
deriving Repr

/-- Initial pool state for `n` items. -/
def initPool (β : Type) (n : Nat) : PoolState β :=
  { nextIndex := 0, active := [], results := List.replicate n none }

/-- One scheduler step of `mapWithConcurrencyLimit` over `n` items with the
given concurrency `limit`: a free worker claims the cursor's index and
advances the cursor, or a claimed invocation `i` finishes and stores
`f i` in slot `i`. -/
inductive PoolStep (n limit : Nat) {β : Type} (f : Nat → β) :
    PoolState β → PoolState β → Prop where
  | claim (s : PoolState β) :
      s.active.length < limit → s.nextIndex < n →
      PoolStep n limit f s
        { nextIndex := s.nextIndex + 1, active := s.nextIndex :: s.active, results := s.results }
  | finish (s : PoolState β) (i : Nat) :
      i ∈ s.active →
      PoolStep n limit f s
        { nextIndex := s.nextIndex, active := s.active.erase i,
          results := s.results.set i (some (f i)) }

/-- A complete run of the pool: a reachable state in which the cursor has
passed every item and no invocation is still in flight. -/
def PoolDone (n limit : Nat) {β : Type} (f : Nat → β) (s : PoolState β) : Prop :=
  Relation.ReflTransGen (PoolStep n limit f) (initPool β n) s ∧
    s.nextIndex = n ∧ s.active = []

/-- Result of one one-shot parallel child as a function of its own index
only: slot `j` runs task `j` against environment `j` (child results do not
read the shared world; see `oneShot_world_independent`). -/
def parChildResult (agents : List AgentConfig) (tasks : List TaskItem)
    (envs : Nat → ProcEnv) (j : Nat) : Except String SingleResult :=
  (runSingleAgent agents (tasks.getD j default).agent (tasks.getD j default).task
    none none false (envs j) World.init).result

/-- Invariant of the pool run: the results array keeps its length, the
cursor never passes `n`, active indices are distinct claimed indices, and
every claimed index that is no longer active holds its result. -/
def PoolInv (n : Nat) {β : Type} (f : Nat → β) (s : PoolState β) : Prop :=
  s.results.length = n ∧ s.nextIndex ≤ n ∧
    (∀ i ∈ s.active, i < s.nextIndex) ∧ s.active.Nodup ∧
    ∀ j, j < s.nextIndex → j ∉ s.active → s.results[j]? = some (some (f j))

/-! ### Concrete fixtures used to evaluate the model on closed inputs -/

/-- A minimal profile named `r`. -/
def agentR : AgentConfig := { name := "r", source := .user }

/-- A session for agent `r` stored under key `s1`. -/
def sessS1 : SubagentSession :=
  { id := "s1", agent := "r", sessionFilePath := "p", promptTmpDir := none,
    createdAt := 0, lastUsedAt := 0, inUse := false }

/-- A world holding only `sessS1`; its transcript file is absent. -/
def worldS1 : World := { sessions := [("s1", sessS1)] }

/-- A world holding `sessS1` together with its transcript file. -/
def worldS1File : World := { sessions := [("s1", sessS1)], files := ["p"] }

/-- A world holding `sessS1` marked in use, with its transcript file. -/
def worldS1Busy : World :=
  { sessions := [("s1", { sessS1 with inUse := true })], files := ["p"] }

/-- A subprocess run during which the cancellation signal fired. -/
def envAbort : ProcEnv := { aborted := true }

/-- Two tasks for agent `r`. -/
def tasksXY : List TaskItem := [{ agent := "r", task := "x" }, { agent := "r", task := "y" }]

/-- Quiet environments for every child. -/
def envs0 : Nat → ProcEnv := fun _ => {}

/-- Terminal pool state of a two-task run. -/
def poolDoneXY : PoolState (Except String SingleResult) :=
  { nextIndex := 2, active := [],
    results := [some (parChildResult [agentR] tasksXY envs0 0),
      some (parChildResult [agentR] tasksXY envs0 1)] }

/-- Environments in which the first child exits nonzero and the second
succeeds. -/
def envsFail : Nat → ProcEnv := fun i => if i = 0 then { exitCode := 1 } else {}

/-- A two-step chain for agent `r`. -/
def chainAB : List ChainStep := [{ agent := "r", task := "a" }, { agent := "r", task := "b" }]

/-- The failed step-1 result of running `chainAB` under `envsFail`. -/
def resAFail : SingleResult :=
  { agent := "r", agentSource := .user, task := "a", exitCode := 1, completed := true,
    messages := [], stderr := "", usage := zeroUsage, step := some 1 }

/-- The chain response produced by `chainAB` under `envsFail`. -/
def respChainAB : ToolResponse :=
  { contentText := "Chain stopped at step 1 (r): (no output)",
    results := [resAFail], isError := true }

/-- An assistant message carrying two text parts. -/
def msgAB : Message := { role := .assistant, content := [.text "A", .text "B"] }

/-- Environments where step 1 streams `msgAB` and later steps stream
nothing. -/
def envsTwoTexts : Nat → ProcEnv :=
  fun i => if i = 0 then { events := [.messageEnd msgAB] } else {}

/-- A two-step chain whose second task holds the placeholder. -/
def chainSumm : List ChainStep :=
  [{ agent := "r", task := "find" }, { agent := "r", task := "summarize \x7bprevious\x7d" }]

/-- An assistant message whose sole text is the JS replacement escape for
the matched text. -/
def msgDollar : Message := { role := .assistant, content := [.text "$&"] }

/-- Environments where step 1 outputs the dollar escape. -/
def envsDollar : Nat → ProcEnv :=
  fun i => if i = 0 then { events := [.messageEnd msgDollar] } else {}

/-- The response of running `chainSumm` under `envsTwoTexts`. -/
def respSumm : ToolResponse :=
  ((runChain [agentR] chainSumm envsTwoTexts World.init).1.toOption).getD
    { contentText := "", results := [] }

/-- The final world of running `chainSumm` under `envsTwoTexts`. -/
def wSumm : World := (runChain [agentR] chainSumm envsTwoTexts World.init).2

/-- A concrete one-line decoder used to evaluate the stream model: the
line `e` decodes to an accepted event, every other line fails to decode. -/
def gE : List Char → Option StreamEvent :=
  fun l => if l = ['e'] then some .otherEvent else none

/-! ### Helper lemmas -/

theorem applyEvent_agent (r : SingleResult) (e : StreamEvent) :
    (applyEvent r e).agent = r.agent := by
  cases e with
  | messageEnd msg =>
    simp only [applyEvent]
    split <;> rfl
  | toolResultEnd msg => rfl
  | otherEvent => rfl

theorem foldl_applyEvent_agent (evs : List StreamEvent) (r : SingleResult) :
    (evs.foldl applyEvent r).agent = r.agent := by
  induction evs generalizing r with
  | nil => rfl
  | cons e evs ih => rw [List.foldl_cons, ih, applyEvent_agent]

theorem lookupKey_updateKey_self {α : Type} (m : List (String × α)) (id : String)
    (f : α → α) : lookupKey (updateKey m id f) id = (lookupKey m id).map f := by
  induction m with
  | nil => rfl
  | cons p m ih =>
    by_cases h : p.1 == id
    · simp [lookupKey, updateKey, List.find?, h]
    · simpa [lookupKey, updateKey, List.find?, h] using ih

theorem lookupKey_eraseKey_self {α : Type} (m : List (String × α)) (id : String) :
    lookupKey (eraseKey m id) id = none := by
  have h : List.find? (fun p => p.1 == id) (eraseKey m id) = none := by
    apply List.find?_eq_none.2
    intro p hp
    have := (List.mem_filter.1 hp).2
    simpa [bne] using this
  simp [lookupKey, h]

theorem rmTmpDir_sessions (d : Option String) (w : World) :
    (rmTmpDir d w).sessions = w.sessions := by
  cases d <;> rfl

theorem rmTmpDir_spawns (d : Option String) (w : World) :
    (rmTmpDir d w).spawns = w.spawns := by
  cases d <;> rfl

theorem cleanupSession_sessions (id : String) (w : World) :
    (cleanupSession id w).sessions = w.sessions ∨
      (cleanupSession id w).sessions = eraseKey w.sessions id := by
  unfold cleanupSession
  cases lookupSession w id <;> simp

theorem lookupSession_cleanupSession_self (id : String) (w : World) :
    lookupSession (cleanupSession id w) id = none ∨
      cleanupSession id w = w := by
  unfold cleanupSession
  cases h : lookupSession w id with
  | none => right; rfl
  | some s => left; exact lookupKey_eraseKey_self _ _

theorem mem_eraseKey {α : Type} {m : List (String × α)} {p : String × α} {id : String} :
    p ∈ eraseKey m id ↔ p ∈ m ∧ p.1 ≠ id := by
  simp [eraseKey, List.mem_filter, bne]

theorem eraseKey_sublist {α : Type} (m : List (String × α)) (id : String) :
    (eraseKey m id).Sublist m :=
  List.filter_sublist m

theorem jobAgeFold_sublist (now : Nat) (l : JobMap) (m : JobMap) :
    (l.foldl (fun m p => if jobOverAge now p.2 then eraseKey m p.1 else m) m).Sublist m := by
  induction l generalizing m with
  | nil => exact List.Sublist.refl m
  | cons q l ih =>
    rw [List.foldl_cons]
    by_cases h : jobOverAge now q.2
    · rw [if_pos h]
      exact (ih (eraseKey m q.1)).trans (eraseKey_sublist m q.1)
    · rw [if_neg h]
      exact ih m

theorem dropOldestJobs_sublist (rem : JobMap) (m : JobMap) :
    (dropOldestJobs m rem).Sublist m := by
  induction rem generalizing m with
  | nil => exact List.Sublist.refl m
  | cons p rem ih =>
    rw [dropOldestJobs]
    by_cases h : rem.length + 1 > COMPLETED_JOB_MAX_COUNT
    · rw [if_pos h]
      exact (ih (eraseKey m p.1)).trans (eraseKey_sublist m p.1)
    · rw [if_neg h]

theorem mem_jobAgeFold (now : Nat) (l : JobMap) (m : JobMap) (id : String)
    (j : BackgroundJob) (hm : (id, j) ∈ m)
    (hl : ∀ q ∈ l, jobOverAge now q.2 = true → q.1 ≠ id) :
    (id, j) ∈ l.foldl (fun m p => if jobOverAge now p.2 then eraseKey m p.1 else m) m := by
  induction l generalizing m with
  | nil => exact hm
  | cons q l ih =>
    rw [List.foldl_cons]
    by_cases h : jobOverAge now q.2
    · rw [if_pos h]
      exact ih (eraseKey m q.1)
        (mem_eraseKey.2 ⟨hm, fun he => hl q (List.mem_cons_self q l) h he.symm⟩)
        (fun q' hq' => hl q' (List.mem_cons_of_mem q hq'))
    · rw [if_neg h]
      exact ih m hm (fun q' hq' => hl q' (List.mem_cons_of_mem q hq'))

theorem mem_dropOldestJobs (rem : JobMap) (m : JobMap) (id : String)
    (j : BackgroundJob) (hm : (id, j) ∈ m) (hr : ∀ q ∈ rem, q.1 ≠ id) :
    (id, j) ∈ dropOldestJobs m rem := by
  induction rem generalizing m with
  | nil => exact hm
  | cons p rem ih =>
    rw [dropOldestJobs]
    by_cases h : rem.length + 1 > COMPLETED_JOB_MAX_COUNT
    · rw [if_pos h]
      exact ih (eraseKey m p.1)
        (mem_eraseKey.2 ⟨hm, fun he => hr p (List.mem_cons_self p rem) he.symm⟩)
        (fun q hq => hr q (List.mem_cons_of_mem p hq))
    · rw [if_neg h]
      exact hm

theorem dropOldestJobs_of_short (rem : JobMap) (m : JobMap)
    (h : rem.length ≤ COMPLETED_JOB_MAX_COUNT) : dropOldestJobs m rem = m := by
  cases rem with
  | nil => rfl
  | cons p rem =>
    rw [dropOldestJobs, if_neg]
    simp only [List.length_cons] at h
    omega

theorem keyNodup_value_eq {α : Type} {m : List (String × α)} {a : String} {b c : α}
    (hnd : (m.map Prod.fst).Nodup) (hb : (a, b) ∈ m) (hc : (a, c) ∈ m) : b = c := by
  induction m with
  | nil => cases hb
  | cons p m ih =>
    rw [List.map_cons, List.nodup_cons] at hnd
    rcases List.mem_cons.1 hb with hb | hb <;> rcases List.mem_cons.1 hc with hc | hc
    · exact congrArg Prod.snd (hb.trans hc.symm)
    · exact absurd (List.mem_map.2 ⟨(a, c), hc, by rw [← hb]⟩) hnd.1
    · exact absurd (List.mem_map.2 ⟨(a, b), hb, by rw [← hc]⟩) hnd.1
    · exact ih hnd.2 hb hc

theorem mem_sortByFinish {l : JobMap} {p : String × BackgroundJob} :
    p ∈ sortByFinish l ↔ p ∈ l :=
  (List.perm_insertionSort _ l).mem_iff

theorem length_sortByFinish (l : JobMap) : (sortByFinish l).length = l.length :=
  (List.perm_insertionSort _ l).length_eq

/-- C9: background-job eviction never removes a job whose status is
`running` -- neither `evictOldJobs` nor the `clear` action deletes one;
eviction only ever removes jobs already present, a terminal job neither
past the age ceiling nor beyond the count ceiling survives the sweep, and
`clear` keeps exactly the running jobs. -/
theorem job_eviction_spares_running (now : Nat) (jobs : JobMap) (id : String)
    (j : BackgroundJob) (hnd : (jobs.map Prod.fst).Nodup) :
    ((id, j) ∈ jobs → j.status = JobStatus.running → (id, j) ∈ evictOldJobs now jobs) ∧
    ((id, j) ∈ jobs → j.status ≠ JobStatus.running → jobOverAge now j = false →
      (jobs.filter jobTerminal).length ≤ COMPLETED_JOB_MAX_COUNT →
      (id, j) ∈ evictOldJobs now jobs) ∧
    ((id, j) ∈ evictOldJobs now jobs → (id, j) ∈ jobs) ∧
    ((id, j) ∈ clearJobs jobs ↔ (id, j) ∈ jobs ∧ j.status = JobStatus.running) := by
  have valueAt : ∀ q ∈ jobs, q.1 = id → (id, j) ∈ jobs → q.2 = j := by
    intro q hq he hmem
    have hq' : (q.1, q.2) ∈ jobs := hq
    rw [he] at hq'
    exact keyNodup_value_eq hnd hq' hmem
  refine ⟨?_, ?_, ?_, ?_⟩
  · intro hmem hrun
    rw [evictOldJobs]
    have hcomp : ∀ q ∈ sortByFinish (jobs.filter jobTerminal),
        jobOverAge now q.2 = true → q.1 ≠ id := by
      intro q hq _ he
      have hq' := List.mem_filter.1 (mem_sortByFinish.1 hq)
      have hv := valueAt q hq'.1 he hmem
      have hterm := hq'.2
      rw [jobTerminal, hv, hrun] at hterm
      simp at hterm
    have hj1 := mem_jobAgeFold now (sortByFinish (jobs.filter jobTerminal)) jobs id j
      hmem hcomp
    refine mem_dropOldestJobs _ _ id j hj1 ?_
    intro q hq he
    have hq1 := List.mem_filter.1 (mem_sortByFinish.1 hq)
    have hqjobs : q ∈ jobs := (jobAgeFold_sublist now _ jobs).subset hq1.1
    have hv := valueAt q hqjobs he hmem
    have hterm := hq1.2
    rw [jobTerminal, hv, hrun] at hterm
    simp at hterm
  · intro hmem hterm hage hcount
    rw [evictOldJobs]
    have hcomp : ∀ q ∈ sortByFinish (jobs.filter jobTerminal),
        jobOverAge now q.2 = true → q.1 ≠ id := by
      intro q hq hover he
      have hq' := List.mem_filter.1 (mem_sortByFinish.1 hq)
      have hv := valueAt q hq'.1 he hmem
      rw [hv, hage] at hover
      simp at hover
    have hj1 := mem_jobAgeFold now (sortByFinish (jobs.filter jobTerminal)) jobs id j
      hmem hcomp
    rw [dropOldestJobs_of_short]
    · exact hj1
    · rw [length_sortByFinish]
      exact le_trans
        (List.Sublist.length_le ((jobAgeFold_sublist now _ jobs).filter jobTerminal)) hcount
  · intro h
    rw [evictOldJobs] at h
    exact (jobAgeFold_sublist now _ jobs).subset ((dropOldestJobs_sublist _ _).subset h)
  · constructor
    · intro h
      have h' := List.mem_filter.1 h
      exact ⟨h'.1, by simpa using h'.2⟩
    · intro ⟨h1, h2⟩
      exact List.mem_filter.2 ⟨h1, by simpa using h2⟩

/-- Witness for C9: in a registry holding one running job and one fresh
terminal job, the sweep keeps both. -/
theorem job_eviction_spares_running_witness :
    ("a", ({ id := "a", status := .running } : BackgroundJob)) ∈
        evictOldJobs 0 [("a", { id := "a", status := .running }),
          ("b", { id := "b", status := .completed, finishedAt := some 0 })] ∧
    ("b", ({ id := "b", status := .completed, finishedAt := some 0 } : BackgroundJob)) ∈
        evictOldJobs 0 [("a", { id := "a", status := .running }),
          ("b", { id := "b", status := .completed, finishedAt := some 0 })] :=
  ⟨(job_eviction_spares_running 0 _ "a" _ (by decide)).1 (by decide) rfl,
   (job_eviction_spares_running 0 _ "b" _ (by decide)).2.1 (by decide) (by decide)
     (by decide) (by decide)⟩

/-- C6: a parallel request with more than `MAX_PARALLEL_TASKS` tasks is
answered by the count-limit message with an empty results list and an
unchanged world -- in particular no subprocess is spawned. -/
theorem parallel_over_limit_rejected (agents : List AgentConfig)
    (params : SubagentParams) (envs : Nat → ProcEnv) (w : World) (ts : List TaskItem)
    (hchain : (params.chain.getD []).length = 0) (htasks : params.tasks = some ts)
    (hlen : ts.length > MAX_PARALLEL_TASKS) :
    runForegroundExecution agents params envs w =
      (Except.ok
        { contentText :=
            "Too many parallel tasks (" ++ toString ts.length ++ "). Max is "
              ++ toString MAX_PARALLEL_TASKS ++ "."
          results := []
          isError := false }, w) ∧
    (runForegroundExecution agents params envs w).2.spawns = w.spawns := by
  have hpos : (params.tasks.getD []).length > 0 := by
    rw [htasks]
    simp only [Option.getD_some]
    have : MAX_PARALLEL_TASKS = 8 := rfl
    omega
  have h : runForegroundExecution agents params envs w =
      (Except.ok
        { contentText :=
            "Too many parallel tasks (" ++ toString ts.length ++ "). Max is "
              ++ toString MAX_PARALLEL_TASKS ++ "."
          results := []
          isError := false }, w) := by
    rw [runForegroundExecution, if_neg (by omega), if_pos hpos, htasks]
    simp only [Option.getD_some]
    rw [runParallel, if_pos hlen]
  exact ⟨h, by rw [h]⟩

/-- Witness for C6: nine tasks are rejected outright. -/
theorem parallel_over_limit_rejected_witness :
    runForegroundExecution []
      { tasks := some (List.replicate 9 ({ agent := "a", task := "t" } : TaskItem)) }
      (fun _ => {}) World.init =
      (Except.ok
        { contentText := "Too many parallel tasks (9). Max is 8."
          results := []
          isError := false }, World.init) := by
  have h := parallel_over_limit_rejected []
    { tasks := some (List.replicate 9 ({ agent := "a", task := "t" } : TaskItem)) }
    (fun _ => {}) World.init (List.replicate 9 { agent := "a", task := "t" })
    rfl rfl (by decide)
  exact h.1.trans rfl

theorem spawnPhase_release (agent : AgentConfig) (agentName task : String)
    (step : Option Nat) (session : Option SubagentSession) (tmp : Option String)
    (env : ProcEnv) (w : World) :
    ∀ sid' s,
      (spawnPhase agent agentName task step session tmp env w).usedSession = some sid' →
      lookupSession (spawnPhase agent agentName task step session tmp env w).world sid' = some s →
      s.inUse = false := by
  intro sid' s hused hs
  cases session with
  | none =>
    unfold spawnPhase at hused
    cases habort : env.aborted <;>
      simp only [habort, Bool.false_eq_true, if_false, if_true, Option.map_none] at hused <;>
      cases hused
  | some sess =>
    have hid : sid' = sess.id := by
      unfold spawnPhase at hused
      cases habort : env.aborted <;>
        simp only [habort, Bool.false_eq_true, if_false, if_true, Option.map_some] at hused <;>
        exact (Option.some_inj.1 hused).symm
    subst hid
    unfold spawnPhase at hs
    cases habort : env.aborted with
    | true =>
      simp only [habort, if_true] at hs
      rw [lookupSession, rmTmpDir_sessions] at hs
      simp only [] at hs
      rw [lookupKey_updateKey_self, Option.map_eq_some'] at hs
      obtain ⟨t, -, ht⟩ := hs
      rw [← ht]
    | false =>
      simp only [habort, Bool.false_eq_true, if_false] at hs
      rw [lookupSession, rmTmpDir_sessions] at hs
      simp only [] at hs
      rw [lookupKey_updateKey_self, Option.map_eq_some'] at hs
      obtain ⟨t, -, ht⟩ := hs
      rw [← ht]

theorem spawnPhase_during_lookup (agent : AgentConfig) (agentName task : String)
    (step : Option Nat) (sess : SubagentSession) (tmp : Option String)
    (env : ProcEnv) (w : World) :
    ∃ wd, (spawnPhase agent agentName task step (some sess) tmp env w).during = some wd ∧
      lookupSession wd sess.id =
        (lookupSession w sess.id).map (fun t => { t with inUse := true }) := by
  unfold spawnPhase
  cases habort : env.aborted <;>
    simp only [habort, Bool.false_eq_true, if_false, if_true] <;>
    refine ⟨_, rfl, ?_⟩ <;>
    cases hcon : ({ w with
        sessions := updateKey w.sessions sess.id (fun t => { t with inUse := true }),
        spawns := w.spawns ++ ["Task: " ++ task] } : World).files.contains sess.sessionFilePath <;>
      simp only [hcon, Bool.false_eq_true, if_false, if_true] <;>
      rw [lookupSession] <;> simp only [] <;>
      rw [lookupKey_updateKey_self] <;> rfl

/-- C5: a Single invocation that passes a session id returns an immediate
synthetic failed result (exit code 1, completed, no messages, a stderr text
naming the failed precondition) with the world unchanged -- hence no
subprocess spawned -- when the id is unknown, owned by another agent, or in
use; when the backing file is missing the stale entry is also removed, the
spawn log is likewise unchanged, and any later resume with the same id
fails with the session-not-found result. -/
theorem session_resume_preconditions (agents : List AgentConfig) (agent : AgentConfig)
    (agentName task : String) (step : Option Nat) (en : Bool) (env : ProcEnv)
    (w : World) (sid : String)
    (hfind : agents.find? (fun a => a.name == agentName) = some agent) :
    (lookupSession w sid = none →
      runSingleAgent agents agentName task step (some sid) en env w =
        { result := .ok (syntheticFailure agentName agent.source task (sessionNotFoundMsg sid) step)
          world := w }) ∧
    (∀ sess, lookupSession w sid = some sess → sess.agent ≠ agentName →
      runSingleAgent agents agentName task step (some sid) en env w =
        { result := .ok (syntheticFailure agentName agent.source task
            (sessionWrongAgentMsg sid sess.agent agentName) step)
          world := w }) ∧
    (∀ sess, lookupSession w sid = some sess → sess.agent = agentName → sess.inUse = true →
      runSingleAgent agents agentName task step (some sid) en env w =
        { result := .ok (syntheticFailure agentName agent.source task (sessionInUseMsg sid) step)
          world := w }) ∧
    (∀ sess, lookupSession w sid = some sess → sess.agent = agentName → sess.inUse = false →
      w.files.contains sess.sessionFilePath = false →
      runSingleAgent agents agentName task step (some sid) en env w =
        { result := .ok (syntheticFailure agentName agent.source task
            (sessionFileMissingMsg sid) step)
          world := cleanupSession sid w } ∧
      lookupSession (cleanupSession sid w) sid = none ∧
      (cleanupSession sid w).spawns = w.spawns ∧
      ∀ task2 step2 en2 env2,
        runSingleAgent agents agentName task2 step2 (some sid) en2 env2 (cleanupSession sid w) =
          { result := .ok (syntheticFailure agentName agent.source task2
              (sessionNotFoundMsg sid) step2)
            world := cleanupSession sid w }) := by
  refine ⟨?_, ?_, ?_, ?_⟩
  · intro hlook
    unfold runSingleAgent
    simp only [hfind, hlook]
  · intro sess hlook hne
    unfold runSingleAgent
    simp only [hfind, hlook]
    rw [if_pos hne]
  · intro sess hlook hag hin
    unfold runSingleAgent
    simp only [hfind, hlook]
    rw [if_neg (fun h => h hag), if_pos hin]
  · intro sess hlook hag hin hfile
    have hlook2 : lookupSession (cleanupSession sid w) sid = none := by
      unfold cleanupSession
      simp only [hlook]
      cases sess.promptTmpDir <;>
        · rw [lookupSession]
          simp only []
          exact lookupKey_eraseKey_self _ _
    refine ⟨?_, hlook2, ?_, ?_⟩
    · unfold runSingleAgent
      simp only [hfind, hlook]
      rw [if_neg (fun h => h hag), if_neg (by rw [hin]; exact Bool.false_ne_true),
        if_pos (by rw [hfile]; rfl)]
    · unfold cleanupSession
      simp only [hlook]
    · intro task2 step2 en2 env2
      unfold runSingleAgent
      simp only [hfind, hlook2]

/-- Witness for C5 at a one-session world whose transcript file is absent:
the resume is rejected with the missing-file text and a retry is rejected
with the not-found text. -/
theorem session_resume_preconditions_witness :
    runSingleAgent [agentR] "r" "t" none (some "s1") true ({} : ProcEnv) worldS1 =
      { result := .ok (syntheticFailure "r" .user "t" (sessionFileMissingMsg "s1") none)
        world := cleanupSession "s1" worldS1 } ∧
    runSingleAgent [agentR] "r" "t2" none (some "s1") true ({} : ProcEnv)
        (cleanupSession "s1" worldS1) =
      { result := .ok (syntheticFailure "r" .user "t2" (sessionNotFoundMsg "s1") none)
        world := cleanupSession "s1" worldS1 } := by
  have h := (session_resume_preconditions [agentR] agentR "r" "t" none true ({} : ProcEnv)
    worldS1 "s1" rfl).2.2.2 sessS1 rfl rfl rfl rfl
  exact ⟨h.1, h.2.2.2 "t2" none true ({} : ProcEnv)⟩

/-- C8: session mutual exclusion.  Resuming a session whose `inUse` flag is
set is rejected immediately with no subprocess spawned (the world is
untouched, so the attempt is not queued); on a valid resume the session's
map entry carries `inUse = true` in the world in which the subprocess runs;
and after any exit path of any invocation -- normal, error result, or
cancellation -- the session the invocation used is either gone or has
`inUse = false` again. -/
theorem session_in_use_exclusion (agents : List AgentConfig) (agent : AgentConfig)
    (agentName task : String) (step : Option Nat) (en : Bool) (env : ProcEnv)
    (w : World) (sid : String)
    (hfind : agents.find? (fun a => a.name == agentName) = some agent) :
    (∀ sess, lookupSession w sid = some sess → sess.agent = agentName →
      sess.inUse = true →
      runSingleAgent agents agentName task step (some sid) en env w =
        { result := .ok (syntheticFailure agentName agent.source task (sessionInUseMsg sid) step)
          world := w }) ∧
    (∀ sess, lookupSession w sid = some sess → sess.id = sid → sess.agent = agentName →
      sess.inUse = false → w.files.contains sess.sessionFilePath = true →
      ∃ wd, (runSingleAgent agents agentName task step (some sid) en env w).during = some wd ∧
        lookupSession wd sid = some { sess with lastUsedAt := w.now, inUse := true }) ∧
    (∀ sessionId sid' s,
      (runSingleAgent agents agentName task step sessionId en env w).usedSession = some sid' →
      lookupSession (runSingleAgent agents agentName task step sessionId en env w).world sid'
        = some s →
      s.inUse = false) := by
  refine ⟨?_, ?_, ?_⟩
  · intro sess hlook hag hin
    unfold runSingleAgent
    simp only [hfind, hlook]
    rw [if_neg (fun h => h hag), if_pos hin]
  · intro sess hlook hsid hag hin hfile
    unfold runSingleAgent
    simp only [hfind, hlook]
    rw [if_neg (fun h => h hag), if_neg (by rw [hin]; exact Bool.false_ne_true),
      if_neg (by rw [hfile]; simp)]
    obtain ⟨wd, hd, hl⟩ := spawnPhase_during_lookup agent agentName task step
      { sess with lastUsedAt := w.now } none env
      { w with sessions := updateKey w.sessions sid (fun _ => { sess with lastUsedAt := w.now }) }
    have hid : ({ sess with lastUsedAt := w.now } : SubagentSession).id = sid := hsid
    rw [hid] at hl
    refine ⟨wd, hd, ?_⟩
    rw [hl, lookupSession]
    simp only []
    rw [lookupKey_updateKey_self,
      show lookupKey w.sessions sid = some sess from hlook]
    simp [hsid]
  · intro sessionId sid' s hused hs
    unfold runSingleAgent at hused hs
    cases hfind2 : agents.find? (fun a => a.name == agentName) with
    | none => simp [hfind2] at hused
    | some agent2 =>
      cases sessionId with
      | some sid2 =>
        cases hlook : lookupSession w sid2 with
        | none => simp [hfind2, hlook] at hused
        | some sess =>
          simp only [hfind2, hlook] at hused hs
          by_cases h1 : sess.agent ≠ agentName
          · rw [if_pos h1] at hused hs
            simp at hused
          · rw [if_neg h1] at hused hs
            by_cases h2 : sess.inUse = true
            · rw [if_pos h2] at hused hs
              simp at hused
            · rw [if_neg h2] at hused hs
              by_cases h3 : (!w.files.contains sess.sessionFilePath) = true
              · rw [if_pos h3] at hused hs
                simp at hused
              · rw [if_neg h3] at hused hs
                exact spawnPhase_release agent2 agentName task step _ none env _ sid' s hused hs
      | none =>
        unfold freshSpawn at hused hs
        simp only [hfind2] at hused hs
        cases hen : en <;>
          simp only [hen, Bool.false_eq_true, if_false, if_true] at hused hs <;>
          by_cases hsp : jsTrim agent2.systemPrompt ≠ ""
        · rw [if_pos hsp] at hused hs
          exact spawnPhase_release agent2 agentName task step none _ env _ sid' s hused hs
        · rw [if_neg hsp] at hused hs
          exact spawnPhase_release agent2 agentName task step none none env w sid' s hused hs
        · rw [if_pos hsp] at hused hs
          exact spawnPhase_release agent2 agentName task step _ none env _ sid' s hused hs
        · rw [if_neg hsp] at hused hs
          exact spawnPhase_release agent2 agentName task step _ none env _ sid' s hused hs

/-- Witness for C8: a busy session rejects a second resume; a valid resume
runs with the flag set in the during-world and leaves it cleared in the
final world. -/
theorem session_in_use_exclusion_witness :
    (runSingleAgent [agentR] "r" "t" none (some "s1") true ({} : ProcEnv) worldS1Busy =
      { result := .ok (syntheticFailure "r" .user "t" (sessionInUseMsg "s1") none)
        world := worldS1Busy }) ∧
    ((runSingleAgent [agentR] "r" "t" none (some "s1") true ({} : ProcEnv)
        worldS1File).during.map (fun wd => lookupSession wd "s1")
      = some (some { sessS1 with lastUsedAt := 0, inUse := true })) ∧
    ({ sessS1 with inUse := false } : SubagentSession).inUse = false := by
  refine ⟨?_, ?_, ?_⟩
  · exact (session_in_use_exclusion [agentR] agentR "r" "t" none true ({} : ProcEnv)
      worldS1Busy "s1" rfl).1 { sessS1 with inUse := true } rfl rfl rfl
  · obtain ⟨wd, hd, hl⟩ := (session_in_use_exclusion [agentR] agentR "r" "t" none true
      ({} : ProcEnv) worldS1File "s1" rfl).2.1 sessS1 rfl rfl rfl rfl rfl
    rw [hd]
    simp only [Option.map]
    rw [hl]
    rfl
  · exact (session_in_use_exclusion [agentR] agentR "r" "t" none true ({} : ProcEnv)
      worldS1File "s1" rfl).2.2 (some "s1") "s1" { sessS1 with inUse := false } rfl rfl

theorem contains_eq_false_of_not_mem {l : List String} {p : String} (h : p ∉ l) :
    l.contains p = false := by
  cases hc : l.contains p with
  | false => rfl
  | true => exact absurd (by simpa using hc) h

theorem not_mem_rmFile_self (l : List String) (p : String) : p ∉ rmFile l p := by
  intro h
  have := (List.mem_filter.1 h).2
  simp at this

theorem not_mem_filter_of_not_mem {l : List String} {q : String → Bool} {p : String}
    (h : p ∉ l) : p ∉ l.filter q :=
  fun hf => h (List.mem_filter.1 hf).1

theorem lookupKey_cleanup (id : String) (w : World) :
    lookupKey (cleanupSession id w).sessions id = none := by
  unfold cleanupSession
  cases h : lookupSession w id with
  | none => exact h
  | some s =>
    simp only []
    exact lookupKey_eraseKey_self _ _

theorem spawnPhase_abort (agent : AgentConfig) (agentName task : String)
    (step : Option Nat) (sess : SubagentSession) (tmp : Option String)
    (env : ProcEnv) (w : World) (ha : env.aborted = true) :
    (spawnPhase agent agentName task step (some sess) tmp env w).result
      = .error "Subagent was aborted" ∧
    lookupSession (spawnPhase agent agentName task step (some sess) tmp env w).world sess.id
      = none := by
  unfold spawnPhase
  simp only [ha, if_true]
  refine ⟨trivial, ?_⟩
  rw [lookupSession, rmTmpDir_sessions]
  simp only []
  rw [lookupKey_updateKey_self, lookupKey_cleanup]
  rfl

theorem spawnPhase_abort_files (agent : AgentConfig) (agentName task : String)
    (step : Option Nat) (sess : SubagentSession) (tmp : Option String)
    (env : ProcEnv) (w : World) (ha : env.aborted = true) (s0 : SubagentSession)
    (hmem : lookupKey w.sessions sess.id = some s0)
    (hpath : s0.sessionFilePath = sess.sessionFilePath) :
    (spawnPhase agent agentName task step (some sess) tmp env w).world.files.contains
      sess.sessionFilePath = false := by
  unfold spawnPhase
  simp only [ha, if_true]
  have hbase : ∀ fs : List String, sess.sessionFilePath ∉ rmFile fs s0.sessionFilePath := by
    intro fs
    rw [hpath]
    exact not_mem_rmFile_self fs _
  cases hcon : w.files.contains sess.sessionFilePath <;>
    simp only [hcon, Bool.false_eq_true, if_false, if_true] <;>
    unfold cleanupSession <;>
    rw [lookupSession] <;>
    simp only [] <;>
    rw [lookupKey_updateKey_self, hmem] <;>
    simp only [Option.map] <;>
    cases hpd : s0.promptTmpDir <;>
    simp only [] <;>
    cases tmp <;>
    unfold rmTmpDir <;>
    simp only [] <;>
    apply contains_eq_false_of_not_mem
  · exact hbase _
  · exact not_mem_filter_of_not_mem (hbase _)
  · exact not_mem_filter_of_not_mem (hbase _)
  · exact not_mem_filter_of_not_mem (not_mem_filter_of_not_mem (hbase _))
  · exact hbase _
  · exact not_mem_filter_of_not_mem (hbase _)
  · exact not_mem_filter_of_not_mem (hbase _)
  · exact not_mem_filter_of_not_mem (not_mem_filter_of_not_mem (hbase _))

/-- C4: when the cancellation signal fires during the subprocess run of a
Single invocation, the call ends in the thrown abort error instead of a
returned result, and the session used is evicted: on a valid resume the
session's entry is gone from the final map, its transcript file is gone
from disk, and a later resume with the same id returns the session-not-found
failure; a fresh-session invocation likewise throws, with the created
session's id absent from the final map. -/
theorem abort_raises_and_evicts_session (agents : List AgentConfig) (agent : AgentConfig)
    (agentName task : String) (step : Option Nat) (en : Bool) (env : ProcEnv)
    (w : World) (sid : String)
    (hfind : agents.find? (fun a => a.name == agentName) = some agent)
    (ha : env.aborted = true) :
    (∀ sess, lookupSession w sid = some sess → sess.id = sid → sess.agent = agentName →
      sess.inUse = false → w.files.contains sess.sessionFilePath = true →
      (runSingleAgent agents agentName task step (some sid) en env w).result
        = .error "Subagent was aborted" ∧
      lookupSession (runSingleAgent agents agentName task step (some sid) en env w).world sid
        = none ∧
      (runSingleAgent agents agentName task step (some sid) en env w).world.files.contains
        sess.sessionFilePath = false ∧
      (∀ task2 step2 en2 env2,
        (runSingleAgent agents agentName task2 step2 (some sid) en2 env2
            (runSingleAgent agents agentName task step (some sid) en env w).world).result
          = .ok (syntheticFailure agentName agent.source task2 (sessionNotFoundMsg sid) step2))) ∧
    ((runSingleAgent agents agentName task step none true env w).result
        = .error "Subagent was aborted" ∧
      lookupSession (runSingleAgent agents agentName task step none true env w).world
        (generateSessionId w) = none) := by
  constructor
  · intro sess hlook hsid hag hin hfile
    subst hsid
    have hrw : runSingleAgent agents agentName task step (some sess.id) en env w =
        spawnPhase agent agentName task step (some { sess with lastUsedAt := w.now }) none env
          { w with sessions :=
              updateKey w.sessions sess.id (fun _ => { sess with lastUsedAt := w.now }) } := by
      unfold runSingleAgent
      simp only [hfind, hlook]
      rw [if_neg (fun h => h hag), if_neg (by rw [hin]; exact Bool.false_ne_true),
        if_neg (by rw [hfile]; simp)]
    have habort := spawnPhase_abort agent agentName task step
      { sess with lastUsedAt := w.now } none env
      { w with sessions :=
          updateKey w.sessions sess.id (fun _ => { sess with lastUsedAt := w.now }) } ha
    have hlooknone : lookupSession
        (runSingleAgent agents agentName task step (some sess.id) en env w).world sess.id
          = none := by
      rw [hrw]
      exact habort.2
    refine ⟨by rw [hrw]; exact habort.1, hlooknone, ?_, ?_⟩
    · rw [hrw]
      refine spawnPhase_abort_files agent agentName task step _ none env _ ha
        { sess with lastUsedAt := w.now } ?_ rfl
      show lookupKey
        (updateKey w.sessions sess.id (fun _ => { sess with lastUsedAt := w.now }))
        sess.id = _
      rw [lookupKey_updateKey_self,
        show lookupKey w.sessions sess.id = some sess from hlook]
      rfl
    · intro task2 step2 en2 env2
      rw [hrw]
      unfold runSingleAgent
      simp only [hfind, habort.2]
  · constructor
    · unfold runSingleAgent freshSpawn
      simp only [hfind, if_true]
      by_cases hsp : jsTrim agent.systemPrompt ≠ ""
      · rw [if_pos hsp]
        exact (spawnPhase_abort agent agentName task step _ none env _ ha).1
      · rw [if_neg hsp]
        exact (spawnPhase_abort agent agentName task step _ none env _ ha).1
    · unfold runSingleAgent freshSpawn
      simp only [hfind, if_true]
      by_cases hsp : jsTrim agent.systemPrompt ≠ ""
      · rw [if_pos hsp]
        exact (spawnPhase_abort agent agentName task step _ none env _ ha).2
      · rw [if_neg hsp]
        exact (spawnPhase_abort agent agentName task step _ none env _ ha).2

/-- Witness for C4: aborting a resumed invocation on `worldS1File` throws,
evicts `s1` and its file, and a retry resume fails; aborting a fresh
invocation throws and leaves no session under the fresh id. -/
theorem abort_raises_and_evicts_session_witness :
    ((runSingleAgent [agentR] "r" "t" none (some "s1") true envAbort worldS1File).result
      = .error "Subagent was aborted") ∧
    (lookupSession (runSingleAgent [agentR] "r" "t" none (some "s1") true envAbort
      worldS1File).world "s1" = none) ∧
    ((runSingleAgent [agentR] "r" "t" none (some "s1") true envAbort
      worldS1File).world.files.contains "p" = false) ∧
    ((runSingleAgent [agentR] "r" "t2" none (some "s1") true envAbort
        (runSingleAgent [agentR] "r" "t" none (some "s1") true envAbort worldS1File).world).result
      = .ok (syntheticFailure "r" .user "t2" (sessionNotFoundMsg "s1") none)) ∧
    ((runSingleAgent [agentR] "r" "t" none none true envAbort World.init).result
      = .error "Subagent was aborted") ∧
    (lookupSession (runSingleAgent [agentR] "r" "t" none none true envAbort World.init).world
      (generateSessionId World.init) = none) := by
  have h := abort_raises_and_evicts_session [agentR] agentR "r" "t" none true envAbort
    worldS1File "s1" rfl rfl
  have hA := h.1 sessS1 rfl rfl rfl rfl rfl
  have hB := (abort_raises_and_evicts_session [agentR] agentR "r" "t" none true envAbort
    World.init "s1" rfl rfl).2
  exact ⟨hA.1, hA.2.1, hA.2.2.1, hA.2.2.2 "t2" none true envAbort, hB.1, hB.2⟩

theorem spawnPhase_result_indep (agent : AgentConfig) (agentName task : String)
    (step : Option Nat) (env : ProcEnv) (tmp tmp' : Option String) (w w' : World) :
    (spawnPhase agent agentName task step none tmp env w).result
      = (spawnPhase agent agentName task step none tmp' env w').result := by
  unfold spawnPhase
  cases habort : env.aborted <;>
    simp only [habort, Bool.false_eq_true, if_false, if_true]

theorem spawnPhase_ok_fields (agent : AgentConfig) (agentName task : String)
    (step : Option Nat) (session : Option SubagentSession) (tmp : Option String)
    (env : ProcEnv) (w : World) (r : SingleResult)
    (h : (spawnPhase agent agentName task step session tmp env w).result = .ok r) :
    r.agent = agentName ∧ r.completed = true := by
  unfold spawnPhase at h
  cases habort : env.aborted with
  | true =>
    simp only [habort, if_true] at h
    injection h
  | false =>
    simp only [habort, Bool.false_eq_true, if_false] at h
    cases h
    constructor
    · show (env.events.foldl applyEvent _).agent = agentName
      rw [foldl_applyEvent_agent]
    · rfl

theorem runSingleAgent_ok_fields (agents : List AgentConfig) (agentName task : String)
    (step : Option Nat) (sessionId : Option String) (en : Bool) (env : ProcEnv)
    (w : World) (r : SingleResult)
    (h : (runSingleAgent agents agentName task step sessionId en env w).result = .ok r) :
    r.agent = agentName ∧ r.completed = true := by
  unfold runSingleAgent at h
  cases hfind : agents.find? (fun a => a.name == agentName) with
  | none =>
    simp only [hfind] at h
    cases h
    exact ⟨rfl, rfl⟩
  | some agent =>
    cases sessionId with
    | some sid =>
      cases hlook : lookupSession w sid with
      | none =>
        simp only [hfind, hlook] at h
        cases h
        exact ⟨rfl, rfl⟩
      | some sess =>
        simp only [hfind, hlook] at h
        by_cases h1 : sess.agent ≠ agentName
        · rw [if_pos h1] at h
          cases h
          exact ⟨rfl, rfl⟩
        · rw [if_neg h1] at h
          by_cases h2 : sess.inUse = true
          · rw [if_pos h2] at h
            cases h
            exact ⟨rfl, rfl⟩
          · rw [if_neg h2] at h
            by_cases h3 : (!w.files.contains sess.sessionFilePath) = true
            · rw [if_pos h3] at h
              cases h
              exact ⟨rfl, rfl⟩
            · rw [if_neg h3] at h
              exact spawnPhase_ok_fields _ _ _ _ _ _ _ _ _ h
    | none =>
      unfold freshSpawn at h
      simp only [hfind] at h
      cases hen : en <;> simp only [hen, Bool.false_eq_true, if_false, if_true] at h <;>
        by_cases hsp : jsTrim agent.systemPrompt ≠ ""
      · rw [if_pos hsp] at h
        exact spawnPhase_ok_fields _ _ _ _ _ _ _ _ _ h
      · rw [if_neg hsp] at h
        exact spawnPhase_ok_fields _ _ _ _ _ _ _ _ _ h
      · rw [if_pos hsp] at h
        exact spawnPhase_ok_fields _ _ _ _ _ _ _ _ _ h
      · rw [if_neg hsp] at h
        exact spawnPhase_ok_fields _ _ _ _ _ _ _ _ _ h

theorem oneShot_result_indep (agents : List AgentConfig) (a t : String)
    (step : Option Nat) (env : ProcEnv) (w w' : World) :
    (runSingleAgent agents a t step none false env w).result
      = (runSingleAgent agents a t step none false env w').result := by
  unfold runSingleAgent freshSpawn
  cases hfind : agents.find? (fun x => x.name == a) with
  | none => rfl
  | some agent =>
    simp only [Bool.false_eq_true, if_false]
    by_cases hsp : jsTrim agent.systemPrompt ≠ ""
    · rw [if_pos hsp, if_pos hsp]
      exact spawnPhase_result_indep agent a t step env _ _ _ _
    · rw [if_neg hsp, if_neg hsp]
      exact spawnPhase_result_indep agent a t step env _ _ _ _

theorem runSingleAgent_ok_of_not_aborted (agents : List AgentConfig)
    (agentName task : String) (step : Option Nat) (sessionId : Option String)
    (en : Bool) (env : ProcEnv) (w : World) (ha : env.aborted = false) :
    ∃ r, (runSingleAgent agents agentName task step sessionId en env w).result = .ok r := by
  unfold runSingleAgent
  cases hfind : agents.find? (fun a => a.name == agentName) with
  | none =>
    simp only [hfind]
    exact ⟨_, rfl⟩
  | some agent =>
    have hspA : ∀ session tmp (w1 : World),
        ∃ r, (spawnPhase agent agentName task step session tmp env w1).result = .ok r := by
      intro session tmp w1
      unfold spawnPhase
      simp only [ha, Bool.false_eq_true, if_false]
      exact ⟨_, rfl⟩
    simp only [hfind]
    cases sessionId with
    | some sid =>
      cases hlook : lookupSession w sid with
      | none =>
        simp only [hlook]
        exact ⟨_, rfl⟩
      | some sess =>
        simp only [hlook]
        by_cases h1 : sess.agent ≠ agentName
        · rw [if_pos h1]; exact ⟨_, rfl⟩
        · rw [if_neg h1]
          by_cases h2 : sess.inUse = true
          · rw [if_pos h2]; exact ⟨_, rfl⟩
          · rw [if_neg h2]
            by_cases h3 : (!w.files.contains sess.sessionFilePath) = true
            · rw [if_pos h3]; exact ⟨_, rfl⟩
            · rw [if_neg h3]; exact hspA _ _ _
    | none =>
      unfold freshSpawn
      cases hen : en <;> simp only [hen, Bool.false_eq_true, if_false, if_true] <;>
        by_cases hsp2 : jsTrim agent.systemPrompt ≠ ""
      · rw [if_pos hsp2]; exact hspA _ _ _
      · rw [if_neg hsp2]; exact hspA _ _ _
      · rw [if_pos hsp2]; exact hspA _ _ _
      · rw [if_neg hsp2]; exact hspA _ _ _

theorem poolInv_init (n : Nat) {β : Type} (f : Nat → β) : PoolInv n f (initPool β n) :=
  ⟨List.length_replicate n none, Nat.zero_le n, by simp [initPool], List.nodup_nil,
    fun j hj => absurd hj (Nat.not_lt_zero j)⟩

theorem poolInv_step {n limit : Nat} {β : Type} {f : Nat → β} {s t : PoolState β}
    (hinv : PoolInv n f s) (hstep : PoolStep n limit f s t) : PoolInv n f t := by
  obtain ⟨hlen, hle, hact, hnd, hres⟩ := hinv
  cases hstep with
  | claim hlim hlt =>
    refine ⟨hlen, hlt, ?_, ?_, ?_⟩
    · intro i hi
      show i < s.nextIndex + 1
      rcases List.mem_cons.1 hi with rfl | hi
      · exact Nat.lt_succ_self _
      · exact Nat.lt_succ_of_lt (hact i hi)
    · show (s.nextIndex :: s.active).Nodup
      exact List.nodup_cons.2 ⟨fun hmem => absurd (hact _ hmem) (lt_irrefl _), hnd⟩
    · intro j hj hnmem
      have hj' : j < s.nextIndex + 1 := hj
      have hj1 : j ≠ s.nextIndex := fun he => hnmem (he ▸ List.mem_cons_self _ _)
      have hj2 : j ∉ s.active := fun hm => hnmem (List.mem_cons_of_mem _ hm)
      exact hres j (by omega) hj2
  | finish i hi =>
    refine ⟨?_, hle, ?_, ?_, ?_⟩
    · show (s.results.set i (some (f i))).length = n
      rw [List.length_set]
      exact hlen
    · intro x hx
      have hx' : x ∈ s.active.erase i := hx
      exact hact x ((s.active.erase_sublist i).subset hx')
    · show (s.active.erase i).Nodup
      exact hnd.erase i
    · intro j hj hnmem
      have hj' : j < s.nextIndex := hj
      have hnmem' : j ∉ s.active.erase i := hnmem
      show (s.results.set i (some (f i)))[j]? = some (some (f j))
      by_cases hji : j = i
      · subst hji
        rw [List.getElem?_set_self']
        have hjlen : j < s.results.length := by
          rw [hlen]
          exact lt_of_lt_of_le (hact j hi) hle
        simp [hjlen]
      · rw [List.getElem?_set_ne (fun h => hji h.symm)]
        exact hres j hj' (fun hm => hnmem' ((List.mem_erase_of_ne hji).2 hm))

theorem poolInv_reach {n limit : Nat} {β : Type} {f : Nat → β} {s : PoolState β}
    (h : Relation.ReflTransGen (PoolStep n limit f) (initPool β n) s) : PoolInv n f s := by
  induction h with
  | refl => exact poolInv_init n f
  | tail hr hstep ih => exact poolInv_step ih hstep

theorem runParallelChildren_spec (agents : List AgentConfig) (envs : Nat → ProcEnv) :
    ∀ (ts : List TaskItem) (i : Nat) (w : World),
      (runParallelChildren agents envs ts i w).1.length = ts.length ∧
      ∀ j (hj : j < ts.length),
        (runParallelChildren agents envs ts i w).1[j]? =
          some ((runSingleAgent agents (ts.get ⟨j, hj⟩).agent (ts.get ⟨j, hj⟩).task
            none none false (envs (i + j)) World.init).result) := by
  intro ts
  induction ts with
  | nil => exact fun i w => ⟨rfl, fun j hj => absurd hj (Nat.not_lt_zero j)⟩
  | cons t ts ih =>
    intro i w
    have hred : (runParallelChildren agents envs (t :: ts) i w).1 =
        (runSingleAgent agents t.agent t.task none none false (envs i) w).result
          :: (runParallelChildren agents envs ts (i + 1)
                (runSingleAgent agents t.agent t.task none none false (envs i) w).world).1 :=
      rfl
    constructor
    · rw [hred, List.length_cons, (ih (i + 1) _).1]
      rfl
    · intro j hj
      cases j with
      | zero =>
        rw [hred, List.getElem?_cons_zero]
        rw [oneShot_result_indep agents t.agent t.task none (envs i) w World.init]
        rfl
      | succ j =>
        have h2 := (ih (i + 1)
          ((runSingleAgent agents t.agent t.task none none false (envs i) w).world)).2 j
          (Nat.lt_of_succ_lt_succ hj)
        rw [hred, List.getElem?_cons_succ, h2]
        have harith : i + 1 + j = i + (j + 1) := by omega
        rw [harith]
        rfl

theorem collectResults_ok :
    ∀ (outs : List (Except String SingleResult)),
      (∀ o ∈ outs, ∃ r, o = .ok r) →
      ∃ rs, collectResults outs = .ok rs ∧ rs.length = outs.length ∧
        ∀ j (hj : j < rs.length), outs[j]? = some (.ok (rs.get ⟨j, hj⟩)) := by
  intro outs
  induction outs with
  | nil => exact fun _ => ⟨[], rfl, rfl, fun j hj => absurd hj (Nat.not_lt_zero j)⟩
  | cons o outs ih =>
    intro h
    obtain ⟨r, hr⟩ := h o (List.mem_cons_self o outs)
    obtain ⟨rs, hc, hlen, hidx⟩ := ih (fun o2 ho2 => h o2 (List.mem_cons_of_mem o ho2))
    subst hr
    refine ⟨r :: rs, ?_, by simp [hlen], ?_⟩
    · show (collectResults outs).map _ = _
      rw [hc]
      rfl
    · intro j hj
      cases j with
      | zero =>
        rw [List.getElem?_cons_zero]
        rfl
      | succ j =>
        rw [List.getElem?_cons_succ]
        exact hidx j (Nat.lt_of_succ_lt_succ hj)

theorem runParallel_ok (agents : List AgentConfig) (tasks : List TaskItem)
    (envs : Nat → ProcEnv) (w : World)
    (hlen : tasks.length ≤ MAX_PARALLEL_TASKS)
    (hnab : ∀ i, (envs i).aborted = false) :
    ∃ resp w2, runParallel agents tasks envs w = (.ok resp, w2) ∧
      resp.isError = false ∧
      resp.results.length = tasks.length ∧
      (∀ j, j < tasks.length → ∃ r, resp.results[j]? = some r ∧
        parChildResult agents tasks envs j = .ok r) ∧
      resp.contentText =
        "Parallel: " ++ toString ((resp.results.filter (fun r => r.exitCode == 0)).length)
          ++ "/" ++ toString resp.results.length ++ " succeeded\n\n"
          ++ String.intercalate "\n\n" (resp.results.map parallelSummary) := by
  obtain ⟨hclen, hcidx⟩ := runParallelChildren_spec agents envs tasks 0 w
  have hallok : ∀ o ∈ (runParallelChildren agents envs tasks 0 w).1, ∃ r, o = .ok r := by
    intro o ho
    obtain ⟨j, hjlt, hjget⟩ := List.mem_iff_getElem.1 ho
    have hjt : j < tasks.length := by rw [← hclen]; exact hjlt
    have := hcidx j hjt
    rw [List.getElem?_eq_getElem hjlt, hjget] at this
    obtain ⟨r, hr⟩ := runSingleAgent_ok_of_not_aborted agents (tasks.get ⟨j, hjt⟩).agent
      (tasks.get ⟨j, hjt⟩).task none none false (envs (0 + j)) World.init (hnab (0 + j))
    exact ⟨r, by rw [Option.some_inj.1 this, hr]⟩
  obtain ⟨rs, hcoll, hrslen, hrsidx⟩ := collectResults_ok _ hallok
  refine ⟨{ contentText := "Parallel: " ++ toString ((rs.filter (fun r => r.exitCode == 0)).length) ++ "/" ++ toString rs.length ++ " succeeded\n\n" ++ String.intercalate "\n\n" (rs.map parallelSummary), results := rs, isError := false }, (runParallelChildren agents envs tasks 0 w).2, ?_, rfl, ?_, ?_, rfl⟩
  · unfold runParallel
    rw [if_neg (by omega)]
    simp only [hcoll]
  · show rs.length = tasks.length
    rw [hrslen, hclen]
  · intro j hjt
    have hjrs : j < rs.length := by rw [hrslen, hclen]; exact hjt
    refine ⟨rs.get ⟨j, hjrs⟩, ?_, ?_⟩
    · show rs[j]? = _
      rw [List.getElem?_eq_getElem hjrs]
      rfl
    · have h1 := hrsidx j hjrs
      have h2 := hcidx j hjt
      rw [h1, Nat.zero_add] at h2
      have h3 := Option.some_inj.1 h2
      unfold parChildResult
      have hgd : tasks.getD j default = tasks.get ⟨j, hjt⟩ := by
        rw [List.getD_eq_getElem?_getD, List.getElem?_eq_getElem hjt]
        rfl
      rw [hgd, ← h3]

/-- C1: completion-order independence of parallel batches.  Any complete run
of the shared-cursor worker pool ends with a results array of the same
length as the request whose slot `j` holds exactly child `j`'s outcome; and
the parallel response built from those children (for a batch that passes
validation, with no cancellation) has one result per requested task, in
request order, with slot `j`'s `agent` field equal to task `j`'s agent. -/
theorem parallel_results_preserve_request_order (agents : List AgentConfig)
    (tasks : List TaskItem) (envs : Nat → ProcEnv) (w : World) (limit : Nat)
    (s : PoolState (Except String SingleResult))
    (hpool : PoolDone tasks.length limit (parChildResult agents tasks envs) s) :
    (s.results.length = tasks.length ∧
      ∀ j, j < tasks.length →
        s.results[j]? = some (some (parChildResult agents tasks envs j))) ∧
    (tasks.length ≤ MAX_PARALLEL_TASKS → (∀ i, (envs i).aborted = false) →
      ∃ resp w2, runParallel agents tasks envs w = (.ok resp, w2) ∧
        resp.results.length = tasks.length ∧
        ∀ j (hj : j < tasks.length), ∃ r, resp.results[j]? = some r ∧
          parChildResult agents tasks envs j = .ok r ∧
          r.agent = (tasks.get ⟨j, hj⟩).agent ∧ r.completed = true) := by
  obtain ⟨hreach, hnext, hactive⟩ := hpool
  have hinv := poolInv_reach hreach
  constructor
  · refine ⟨hinv.1, ?_⟩
    intro j hj
    exact hinv.2.2.2.2 j (by rw [hnext]; exact hj) (by rw [hactive]; exact List.not_mem_nil j)
  · intro hlen hnab
    obtain ⟨resp, w2, hrun, hne, hrlen, hidx, hcontent⟩ :=
      runParallel_ok agents tasks envs w hlen hnab
    refine ⟨resp, w2, hrun, hrlen, ?_⟩
    intro j hj
    obtain ⟨r, hget, hok⟩ := hidx j hj
    have hfields := runSingleAgent_ok_fields agents (tasks.getD j default).agent
      (tasks.getD j default).task none none false (envs j) World.init r hok
    refine ⟨r, hget, hok, ?_, hfields.2⟩
    rw [hfields.1]
    have hgd : tasks.getD j default = tasks.get ⟨j, hj⟩ := by
      rw [List.getD_eq_getElem?_getD, List.getElem?_eq_getElem hj]
      rfl
    rw [hgd]

/-- Witness for C1: a two-task pool run whose children finish in reverse
order (claim 0, claim 1, finish 1, finish 0) still fills the slots in
request order, and the built response keeps one result per task. -/
theorem parallel_results_preserve_request_order_witness :
    poolDoneXY.results.length = tasksXY.length ∧
    poolDoneXY.results[0]? = some (some (parChildResult [agentR] tasksXY envs0 0)) ∧
    poolDoneXY.results[1]? = some (some (parChildResult [agentR] tasksXY envs0 1)) ∧
    ∃ resp w2, runParallel [agentR] tasksXY envs0 World.init = (.ok resp, w2) ∧
      resp.results.length = tasksXY.length := by
  have hrun : Relation.ReflTransGen
      (PoolStep tasksXY.length MAX_CONCURRENCY (parChildResult [agentR] tasksXY envs0))
      (initPool (Except String SingleResult) tasksXY.length) poolDoneXY := by
    refine Relation.ReflTransGen.head (PoolStep.claim _ (by decide) (by decide)) ?_
    refine Relation.ReflTransGen.head (PoolStep.claim _ (by decide) (by decide)) ?_
    refine Relation.ReflTransGen.head (PoolStep.finish _ 1 (by decide)) ?_
    refine Relation.ReflTransGen.head (PoolStep.finish _ 0 (by decide)) ?_
    exact Relation.ReflTransGen.refl
  have h := parallel_results_preserve_request_order [agentR] tasksXY envs0 World.init
    MAX_CONCURRENCY poolDoneXY ⟨hrun, rfl, rfl⟩
  obtain ⟨resp, w2, hok, hlen, -⟩ := h.2 (by decide) (fun i => rfl)
  exact ⟨h.1.1, h.1.2 0 (by decide), h.1.2 1 (by decide), resp, w2, hok, hlen⟩

/-- C7: failure isolation in parallel mode.  With no cancellation, every
child of a validated batch runs to completion -- slot `j` always holds a
completed result computed from child `j` alone, whatever the other
children's exit codes -- and the response is not marked as an error: it
reports the succeeded-out-of-total count and the per-item summaries. -/
theorem parallel_child_failure_isolated (agents : List AgentConfig)
    (tasks : List TaskItem) (envs : Nat → ProcEnv) (w : World)
    (hlen : tasks.length ≤ MAX_PARALLEL_TASKS)
    (hnab : ∀ i, (envs i).aborted = false) :
    ∃ resp w2, runParallel agents tasks envs w = (.ok resp, w2) ∧
      resp.isError = false ∧
      resp.results.length = tasks.length ∧
      (∀ j, j < tasks.length → ∃ r, resp.results[j]? = some r ∧
        parChildResult agents tasks envs j = .ok r ∧ r.completed = true) ∧
      resp.contentText =
        "Parallel: " ++ toString ((resp.results.filter (fun r => r.exitCode == 0)).length)
          ++ "/" ++ toString resp.results.length ++ " succeeded\n\n"
          ++ String.intercalate "\n\n" (resp.results.map parallelSummary) := by
  obtain ⟨resp, w2, hok, hne, hrlen, hidx, hcontent⟩ := runParallel_ok agents tasks envs w hlen hnab
  refine ⟨resp, w2, hok, hne, hrlen, ?_, hcontent⟩
  intro j hj
  obtain ⟨r, hget, hchild⟩ := hidx j hj
  exact ⟨r, hget, hchild,
    (runSingleAgent_ok_fields agents (tasks.getD j default).agent (tasks.getD j default).task
      none none false (envs j) World.init r hchild).2⟩

/-- Witness for C7: with the first of two children failing, both slots hold
completed results and the response is a non-error 1-out-of-2 report. -/
theorem parallel_child_failure_isolated_witness :
    ∃ resp w2, runParallel [agentR] tasksXY envsFail World.init = (.ok resp, w2) ∧
      resp.isError = false ∧
      resp.results.length = 2 ∧
      (∃ r0, resp.results[0]? = some r0 ∧
        parChildResult [agentR] tasksXY envsFail 0 = .ok r0 ∧ r0.completed = true) ∧
      (∃ r1, resp.results[1]? = some r1 ∧
        parChildResult [agentR] tasksXY envsFail 1 = .ok r1 ∧ r1.completed = true) := by
  obtain ⟨resp, w2, hok, hne, hrlen, hidx, -⟩ :=
    parallel_child_failure_isolated [agentR] tasksXY envsFail World.init (by decide)
      (fun i => by unfold envsFail; split <;> rfl)
  exact ⟨resp, w2, hok, hne, hrlen, hidx 0 (by decide), hidx 1 (by decide)⟩

theorem applyEvent_task_step (r : SingleResult) (e : StreamEvent) :
    (applyEvent r e).task = r.task ∧ (applyEvent r e).step = r.step := by
  cases e with
  | messageEnd msg =>
    simp only [applyEvent]
    split <;> exact ⟨rfl, rfl⟩
  | toolResultEnd msg => exact ⟨rfl, rfl⟩
  | otherEvent => exact ⟨rfl, rfl⟩

theorem foldl_applyEvent_task_step (evs : List StreamEvent) (r : SingleResult) :
    (evs.foldl applyEvent r).task = r.task ∧ (evs.foldl applyEvent r).step = r.step := by
  induction evs generalizing r with
  | nil => exact ⟨rfl, rfl⟩
  | cons e evs ih =>
    rw [List.foldl_cons]
    obtain ⟨h1, h2⟩ := ih (applyEvent r e)
    obtain ⟨h3, h4⟩ := applyEvent_task_step r e
    exact ⟨h1.trans h3, h2.trans h4⟩

theorem spawnPhase_ok_meta (agent : AgentConfig) (agentName task : String)
    (step : Option Nat) (session : Option SubagentSession) (tmp : Option String)
    (env : ProcEnv) (w : World) (r : SingleResult)
    (h : (spawnPhase agent agentName task step session tmp env w).result = .ok r) :
    r.task = task ∧ r.step = step := by
  unfold spawnPhase at h
  cases habort : env.aborted with
  | true =>
    simp only [habort, if_true] at h
    injection h
  | false =>
    simp only [habort, Bool.false_eq_true, if_false] at h
    cases h
    obtain ⟨h1, h2⟩ := foldl_applyEvent_task_step env.events
      { agent := agentName, agentSource := agent.source, task := task, exitCode := 0,
        completed := false, messages := [], stderr := "", usage := zeroUsage,
        model := agent.model, step := step }
    exact ⟨h1, h2⟩

theorem runSingleAgent_ok_meta (agents : List AgentConfig) (agentName task : String)
    (step : Option Nat) (sessionId : Option String) (en : Bool) (env : ProcEnv)
    (w : World) (r : SingleResult)
    (h : (runSingleAgent agents agentName task step sessionId en env w).result = .ok r) :
    r.task = task ∧ r.step = step := by
  unfold runSingleAgent at h
  cases hfind : agents.find? (fun a => a.name == agentName) with
  | none =>
    simp only [hfind] at h
    cases h
    exact ⟨rfl, rfl⟩
  | some agent =>
    cases sessionId with
    | some sid =>
      cases hlook : lookupSession w sid with
      | none =>
        simp only [hfind, hlook] at h
        cases h
        exact ⟨rfl, rfl⟩
      | some sess =>
        simp only [hfind, hlook] at h
        by_cases h1 : sess.agent ≠ agentName
        · rw [if_pos h1] at h
          cases h
          exact ⟨rfl, rfl⟩
        · rw [if_neg h1] at h
          by_cases h2 : sess.inUse = true
          · rw [if_pos h2] at h
            cases h
            exact ⟨rfl, rfl⟩
          · rw [if_neg h2] at h
            by_cases h3 : (!w.files.contains sess.sessionFilePath) = true
            · rw [if_pos h3] at h
              cases h
              exact ⟨rfl, rfl⟩
            · rw [if_neg h3] at h
              exact spawnPhase_ok_meta _ _ _ _ _ _ _ _ _ h
    | none =>
      unfold freshSpawn at h
      simp only [hfind] at h
      cases hen : en <;> simp only [hen, Bool.false_eq_true, if_false, if_true] at h <;>
        by_cases hsp : jsTrim agent.systemPrompt ≠ ""
      · rw [if_pos hsp] at h
        exact spawnPhase_ok_meta _ _ _ _ _ _ _ _ _ h
      · rw [if_neg hsp] at h
        exact spawnPhase_ok_meta _ _ _ _ _ _ _ _ _ h
      · rw [if_pos hsp] at h
        exact spawnPhase_ok_meta _ _ _ _ _ _ _ _ _ h
      · rw [if_neg hsp] at h
        exact spawnPhase_ok_meta _ _ _ _ _ _ _ _ _ h

theorem runChainAux_spec (agents : List AgentConfig) (envs : Nat → ProcEnv) :
    ∀ (steps : List ChainStep) (i : Nat) (prev : String) (acc : List SingleResult)
      (w : World) (resp : ToolResponse) (w2 : World),
      runChainAux agents envs steps i prev acc w = (.ok resp, w2) →
      ∃ rs, resp.results = acc ++ rs ∧ rs.length ≤ steps.length ∧
        (∀ j (hs : j < steps.length), j < rs.length →
          ∃ r, rs[j]? = some r ∧ r.step = some (i + j + 1) ∧
            r.agent = (steps.get ⟨j, hs⟩).agent) ∧
        ((resp.isError = false ∧ rs.length = steps.length ∧
          ∀ j, j < rs.length → ∃ r, rs[j]? = some r ∧ isErrorResult r = false)
         ∨ (resp.isError = true ∧
            ∃ k, rs.length = k + 1 ∧
              (∀ j, j < k → ∃ r, rs[j]? = some r ∧ isErrorResult r = false) ∧
              ∃ r, ∃ hs : k < steps.length, rs[k]? = some r ∧ isErrorResult r = true ∧
                resp.contentText = "Chain stopped at step " ++ toString (i + k + 1)
                  ++ " (" ++ (steps.get ⟨k, hs⟩).agent ++ "): " ++ failureExplanation r)) := by
  intro steps
  induction steps with
  | nil =>
    intro i prev acc w resp w2 h
    rw [runChainAux] at h
    injection h with h1 h2
    injection h1 with h3
    refine ⟨[], by rw [← h3, List.append_nil], Nat.le_refl 0, ?_, ?_⟩
    · intro j hs hj
      exact absurd hj (Nat.not_lt_zero j)
    · left
      refine ⟨by rw [← h3], rfl, ?_⟩
      intro j hj
      exact absurd hj (Nat.not_lt_zero j)
  | cons step rest ih =>
    intro i prev acc w resp w2 h
    rw [runChainAux] at h
    cases hout : (runSingleAgent agents step.agent (replacePrevious step.task prev)
        (some (i + 1)) none false (envs i) w).result with
    | error e =>
      rw [hout] at h
      simp only [] at h
      injection h with h1 h2
      injection h1
    | ok result =>
      rw [hout] at h
      simp only [] at h
      have hagent := (runSingleAgent_ok_fields agents step.agent
        (replacePrevious step.task prev) (some (i + 1)) none false (envs i) w result hout).1
      have hstep := (runSingleAgent_ok_meta agents step.agent
        (replacePrevious step.task prev) (some (i + 1)) none false (envs i) w result hout).2
      by_cases hie : isErrorResult result = true
      · rw [if_pos hie] at h
        injection h with h1 h2
        injection h1 with h3
        refine ⟨[result], by rw [← h3], by simp, ?_, ?_⟩
        · intro j hs hj
          cases j with
          | zero =>
            refine ⟨result, by rw [List.getElem?_cons_zero], ?_, hagent⟩
            rw [hstep]
          | succ j => simp at hj
        · right
          refine ⟨by rw [← h3], 0, rfl, ?_, result, by simp,
            by rw [List.getElem?_cons_zero], hie, ?_⟩
          · intro j hj
            exact absurd hj (Nat.not_lt_zero j)
          · rw [← h3]
            have harith : i + 0 + 1 = i + 1 := by omega
            rw [harith]
            rfl
      · rw [if_neg hie] at h
        obtain ⟨rs2, heq, hle, hstat, hdisj⟩ :=
          ih (i + 1) (getFinalOutput result.messages) (acc ++ [result]) _ resp w2 h
        have hie' : isErrorResult result = false := by
          cases hcase : isErrorResult result
          · rfl
          · exact absurd hcase hie
        refine ⟨result :: rs2, ?_, ?_, ?_, ?_⟩
        · rw [heq, List.append_assoc]
          rfl
        · show rs2.length + 1 ≤ rest.length + 1
          omega
        · intro j hs hj
          cases j with
          | zero =>
            refine ⟨result, by rw [List.getElem?_cons_zero], ?_, hagent⟩
            rw [hstep]
          | succ j =>
            have hs2 : j < rest.length := Nat.lt_of_succ_lt_succ hs
            have hj2 : j < rs2.length := Nat.lt_of_succ_lt_succ hj
            obtain ⟨r, hget, hrstep, hragent⟩ := hstat j hs2 hj2
            refine ⟨r, ?_, ?_, hragent⟩
            · rw [List.getElem?_cons_succ]
              exact hget
            · rw [hrstep]
              have : i + 1 + j + 1 = i + (j + 1) + 1 := by omega
              rw [this]
        · cases hdisj with
          | inl hl =>
            obtain ⟨hne, hlen2, hok2⟩ := hl
            left
            refine ⟨hne, ?_, ?_⟩
            · show rs2.length + 1 = rest.length + 1
              omega
            · intro j hj
              cases j with
              | zero => exact ⟨result, by rw [List.getElem?_cons_zero], hie'⟩
              | succ j =>
                rw [List.getElem?_cons_succ]
                exact hok2 j (Nat.lt_of_succ_lt_succ hj)
          | inr hr =>
            obtain ⟨hte, k, hklen, hpre, r, hs, hlast, herr, hcontent⟩ := hr
            right
            refine ⟨hte, k + 1, ?_, ?_, r, Nat.succ_lt_succ hs, ?_, herr, ?_⟩
            · show rs2.length + 1 = k + 1 + 1
              omega
            · intro j hj
              cases j with
              | zero => exact ⟨result, by rw [List.getElem?_cons_zero], hie'⟩
              | succ j =>
                rw [List.getElem?_cons_succ]
                exact hpre j (Nat.lt_of_succ_lt_succ hj)
            · rw [List.getElem?_cons_succ]
              exact hlast
            · rw [hcontent]
              have : i + 1 + k + 1 = i + (k + 1) + 1 := by omega
              rw [this]
              rfl

/-- C3: chain mode stops at the first non-success step.  A chain run that
returns (rather than throwing on cancellation) either succeeds every step
with one result per step, or there is a first failing step `k+1` (1-based):
the results hold exactly the `k+1` entries for steps 1 through `k+1`, all
earlier entries are successes, the response is marked as an error, and its
text names step `k+1` and that step's agent. -/
theorem chain_stops_at_first_failure (agents : List AgentConfig)
    (chain : List ChainStep) (envs : Nat → ProcEnv) (w : World)
    (resp : ToolResponse) (w2 : World)
    (h : runChain agents chain envs w = (.ok resp, w2)) :
    (resp.isError = false ∧ resp.results.length = chain.length ∧
      ∀ j, j < resp.results.length → ∃ r, resp.results[j]? = some r ∧
        isErrorResult r = false ∧ r.step = some (j + 1)) ∨
    (∃ k, ∃ hk : k < chain.length, resp.isError = true ∧
      resp.results.length = k + 1 ∧
      (∀ j, j < k → ∃ r, resp.results[j]? = some r ∧ isErrorResult r = false) ∧
      ∃ r, resp.results[k]? = some r ∧ isErrorResult r = true ∧ r.step = some (k + 1) ∧
        r.agent = (chain.get ⟨k, hk⟩).agent ∧
        resp.contentText = "Chain stopped at step " ++ toString (k + 1) ++ " ("
          ++ (chain.get ⟨k, hk⟩).agent ++ "): " ++ failureExplanation r) := by
  obtain ⟨rs, heq, hle, hstat, hdisj⟩ := runChainAux_spec agents envs chain 0 "" [] w resp w2 h
  have heq' : resp.results = rs := heq
  cases hdisj with
  | inl hl =>
    obtain ⟨hne, hlen, hok⟩ := hl
    left
    refine ⟨hne, by rw [heq', hlen], ?_⟩
    intro j hj
    rw [heq'] at hj ⊢
    obtain ⟨r, hget, herr⟩ := hok j hj
    obtain ⟨r2, hget2, hstep2, -⟩ := hstat j (by omega) hj
    rw [hget] at hget2
    have hst : r.step = some (0 + j + 1) := by
      rw [Option.some_inj.1 hget2]
      exact hstep2
    rw [Nat.zero_add] at hst
    exact ⟨r, hget, herr, hst⟩
  | inr hr =>
    obtain ⟨hte, k, hklen, hpre, r, hs, hlast, herr, hcontent⟩ := hr
    right
    refine ⟨k, hs, hte, by rw [heq', hklen], ?_, r, ?_, herr, ?_, ?_, ?_⟩
    · intro j hj
      rw [heq']
      exact hpre j hj
    · rw [heq']
      exact hlast
    · obtain ⟨r2, hget2, hstep2, -⟩ := hstat k hs (by omega)
      rw [hlast] at hget2
      have hst : r.step = some (0 + k + 1) := by
        rw [Option.some_inj.1 hget2]
        exact hstep2
      rw [Nat.zero_add] at hst
      exact hst
    · obtain ⟨r2, hget2, -, hagent2⟩ := hstat k hs (by omega)
      rw [hlast] at hget2
      rw [Option.some_inj.1 hget2]
      exact hagent2
    · rw [Nat.zero_add] at hcontent
      exact hcontent

/-- Witness for C3: a two-step chain whose first step exits nonzero stops
after one result with the step-1 explanation. -/
theorem chain_stops_at_first_failure_witness :
    ∃ resp w2, runChain [agentR] chainAB envsFail World.init = (.ok resp, w2) ∧
      resp.isError = true ∧ resp.results.length = 1 ∧
      resp.contentText = "Chain stopped at step 1 (r): (no output)" := by
  have h0 : runChain [agentR] chainAB envsFail World.init =
      (.ok respChainAB, ({ spawns := ["Task: a"] } : World)) := rfl
  refine ⟨respChainAB, { spawns := ["Task: a"] }, h0, ?_⟩
  rcases chain_stops_at_first_failure [agentR] chainAB envsFail World.init respChainAB _ h0
    with hl | hr
  · exact absurd hl.1 (by decide)
  · obtain ⟨k, hk, hte, -, -, -⟩ := hr
    exact ⟨hte, by decide, by decide⟩

theorem expandRepl_no_dollar (m b a : List Char) :
    ∀ l : List Char, (∀ c ∈ l, c ≠ dollarChar) → expandRepl m b a l = l := by
  intro l
  induction l with
  | nil => intro _; rfl
  | cons c rest ih =>
    intro h
    cases rest with
    | nil => rfl
    | cons d rest2 =>
      simp only [expandRepl]
      rw [if_neg (h c (List.mem_cons_self c _)),
        ih (fun x hx => h x (List.mem_cons_of_mem c hx))]

theorem replacePrevGo_no_dollar (repl orig : List Char)
    (h : ∀ c ∈ repl, c ≠ dollarChar) :
    ∀ (rest : List Char) (i skip : Nat),
      replacePrevGo repl orig rest i skip = specReplacePrevGo repl rest skip := by
  intro rest
  induction rest with
  | nil => intro i skip; rfl
  | cons c rs ih =>
    intro i skip
    simp only [replacePrevGo, specReplacePrevGo]
    by_cases hskip : skip > 0
    · rw [if_pos hskip, if_pos hskip, ih]
    · rw [if_neg hskip, if_neg hskip]
      by_cases hpre : prevPat.isPrefixOf (c :: rs) = true
      · rw [if_pos hpre, if_pos hpre, ih, expandRepl_no_dollar _ _ _ repl h]
      · rw [if_neg hpre, if_neg hpre, ih]

theorem replacePrevious_no_dollar (s repl : String)
    (h : ∀ c ∈ repl.toList, c ≠ dollarChar) :
    replacePrevious s repl = specReplacePrevious s repl := by
  unfold replacePrevious specReplacePrevious
  rw [replacePrevGo_no_dollar repl.toList s.toList h]

theorem runChainAux_task_spec (agents : List AgentConfig) (envs : Nat → ProcEnv) :
    ∀ (steps : List ChainStep) (i : Nat) (prev : String) (acc : List SingleResult)
      (w : World) (resp : ToolResponse) (w2 : World),
      runChainAux agents envs steps i prev acc w = (.ok resp, w2) →
      ∃ rs, resp.results = acc ++ rs ∧
        (0 < rs.length → ∀ hs : 0 < steps.length,
          ∃ r, rs[0]? = some r ∧
            r.task = replacePrevious (steps.get ⟨0, hs⟩).task prev) ∧
        (∀ j, j + 1 < rs.length → ∀ hs : j + 1 < steps.length,
          ∃ q r, rs[j]? = some q ∧ rs[j + 1]? = some r ∧
            r.task = replacePrevious (steps.get ⟨j + 1, hs⟩).task
              (getFinalOutput q.messages)) := by
  intro steps
  induction steps with
  | nil =>
    intro i prev acc w resp w2 h
    rw [runChainAux] at h
    injection h with h1 h2
    injection h1 with h3
    refine ⟨[], by rw [← h3, List.append_nil], ?_, ?_⟩
    · intro hr
      exact absurd hr (by simp)
    · intro j hj
      exact absurd hj (by simp)
  | cons step rest ih =>
    intro i prev acc w resp w2 h
    rw [runChainAux] at h
    cases hout : (runSingleAgent agents step.agent (replacePrevious step.task prev)
        (some (i + 1)) none false (envs i) w).result with
    | error e =>
      rw [hout] at h
      simp only [] at h
      injection h with h1 h2
      injection h1
    | ok result =>
      rw [hout] at h
      simp only [] at h
      have htask := (runSingleAgent_ok_meta agents step.agent
        (replacePrevious step.task prev) (some (i + 1)) none false (envs i) w result hout).1
      by_cases hie : isErrorResult result = true
      · rw [if_pos hie] at h
        injection h with h1 h2
        injection h1 with h3
        refine ⟨[result], by rw [← h3], ?_, ?_⟩
        · intro hr hs
          exact ⟨result, by rw [List.getElem?_cons_zero], htask⟩
        · intro j hj
          simp at hj
      · rw [if_neg hie] at h
        obtain ⟨rs2, heq, hfirst2, hchain2⟩ :=
          ih (i + 1) (getFinalOutput result.messages) (acc ++ [result]) _ resp w2 h
        refine ⟨result :: rs2, ?_, ?_, ?_⟩
        · rw [heq, List.append_assoc]
          rfl
        · intro hr hs
          exact ⟨result, by rw [List.getElem?_cons_zero], htask⟩
        · intro j hj hs
          cases j with
          | zero =>
            have hr2 : 0 < rs2.length := by
              have : 1 < rs2.length + 1 := hj
              omega
            have hs2 : 0 < rest.length := by
              have : 1 < rest.length + 1 := hs
              omega
            obtain ⟨r, hr0, ht⟩ := hfirst2 hr2 hs2
            refine ⟨result, r, by rw [List.getElem?_cons_zero], ?_, ht⟩
            rw [List.getElem?_cons_succ]
            exact hr0
          | succ j =>
            have hj2 : j + 1 < rs2.length := by
              have : j + 1 + 1 < rs2.length + 1 := hj
              omega
            have hs2 : j + 1 < rest.length := by
              have : j + 1 + 1 < rest.length + 1 := hs
              omega
            obtain ⟨q, r, hq, hr, ht⟩ := hchain2 j hj2 hs2
            refine ⟨q, r, ?_, ?_, ht⟩
            · rw [List.getElem?_cons_succ]
              exact hq
            · rw [List.getElem?_cons_succ]
              exact hr

/-- C2 (counterexample): the claim fails on both counts.  With a chain
`[find, summarize \x7bprevious\x7d]` whose first step streams one assistant
message holding text parts `A` then `B`, the code runs step 2 with task
`summarize A` (the FIRST text part), not `summarize B` as substituting the
last text part of the last assistant message would give; and when step 1's
output is the two-character string dollar-ampersand, the code runs step 2
with task `summarize \x7bprevious\x7d` (JS `$`-escape expansion), not the
literal substitution `summarize $&`. -/
theorem chain_previous_substitution_counterexample :
    ((runChain [agentR] chainSumm envsTwoTexts World.init).1.toOption.getD
        { contentText := "", results := [] }).results.map (fun r => r.task)
      = ["find", "summarize A"] ∧
    specReplacePrevious "summarize \x7bprevious\x7d" (specFinalOutput [msgAB])
      = "summarize B" ∧
    ((runChain [agentR] chainSumm envsTwoTexts World.init).1.toOption.getD
        { contentText := "", results := [] }).results.map (fun r => r.task)
      ≠ ["find",
          specReplacePrevious "summarize \x7bprevious\x7d" (specFinalOutput [msgAB])] ∧
    ((runChain [agentR] chainSumm envsDollar World.init).1.toOption.getD
        { contentText := "", results := [] }).results.map (fun r => r.task)
      = ["find", "summarize \x7bprevious\x7d"] ∧
    specReplacePrevious "summarize \x7bprevious\x7d" (getFinalOutput [msgDollar])
      = "summarize $&" ∧
    ((runChain [agentR] chainSumm envsDollar World.init).1.toOption.getD
        { contentText := "", results := [] }).results.map (fun r => r.task)
      ≠ ["find",
          specReplacePrevious "summarize \x7bprevious\x7d" (getFinalOutput [msgDollar])] :=
  ⟨rfl, rfl, by decide, rfl, rfl, by decide⟩

/-- C2 (amended): in chain mode, step 1 runs with its task text's
placeholder occurrences replaced by the empty string, and every later
result's task text is its step's task text with the placeholder replaced --
with JavaScript replacement semantics -- by the previous step's final
output, which is the first text part of the most recent assistant message
that has one; when that output holds no dollar character the replacement
coincides with the spec's plain textual substitution. -/
theorem chain_previous_substitution_amended (agents : List AgentConfig)
    (chain : List ChainStep) (envs : Nat → ProcEnv) (w : World)
    (resp : ToolResponse) (w2 : World)
    (h : runChain agents chain envs w = (.ok resp, w2)) :
    (0 < resp.results.length → ∀ hs : 0 < chain.length,
      ∃ r, resp.results[0]? = some r ∧
        r.task = replacePrevious (chain.get ⟨0, hs⟩).task "" ∧
        r.task = specReplacePrevious (chain.get ⟨0, hs⟩).task "") ∧
    (∀ j, j + 1 < resp.results.length → ∀ hs : j + 1 < chain.length,
      ∃ q r, resp.results[j]? = some q ∧ resp.results[j + 1]? = some r ∧
        r.task = replacePrevious (chain.get ⟨j + 1, hs⟩).task
          (getFinalOutput q.messages) ∧
        ((∀ c ∈ (getFinalOutput q.messages).toList, c ≠ dollarChar) →
          r.task = specReplacePrevious (chain.get ⟨j + 1, hs⟩).task
            (getFinalOutput q.messages))) := by
  obtain ⟨rs, heq, hfirst, hchain⟩ :=
    runChainAux_task_spec agents envs chain 0 "" [] w resp w2 h
  have heq' : resp.results = rs := heq
  constructor
  · intro hr hs
    rw [heq'] at hr ⊢
    obtain ⟨r, hr0, ht⟩ := hfirst hr hs
    refine ⟨r, hr0, ht, ?_⟩
    rw [ht, replacePrevious_no_dollar]
    intro c hc
    simp at hc
  · intro j hj hs
    rw [heq'] at hj ⊢
    obtain ⟨q, r, hq, hr, ht⟩ := hchain j hj hs
    refine ⟨q, r, hq, hr, ht, ?_⟩
    intro hnd
    rw [ht, replacePrevious_no_dollar _ _ hnd]

/-- Witness for C2 (amended): on the two-text-part chain, step 2's recorded
task is the JS replacement of the placeholder by step 1's final output. -/
theorem chain_previous_substitution_amended_witness :
    runChain [agentR] chainSumm envsTwoTexts World.init = (.ok respSumm, wSumm) ∧
    ∃ q r, respSumm.results[0]? = some q ∧ respSumm.results[1]? = some r ∧
      r.task = replacePrevious "summarize \x7bprevious\x7d" (getFinalOutput q.messages) := by
  have h0 : runChain [agentR] chainSumm envsTwoTexts World.init = (.ok respSumm, wSumm) := rfl
  refine ⟨h0, ?_⟩
  obtain ⟨-, hchain⟩ := chain_previous_substitution_amended [agentR] chainSumm envsTwoTexts
    World.init respSumm wSumm h0
  obtain ⟨q, r, hq, hr, ht, -⟩ := hchain 0 (by decide) (by decide)
  exact ⟨q, r, hq, hr, ht⟩

theorem splitNl_ne_nil : ∀ l : List Char, splitNl l ≠ []
  | [] => by simp [splitNl]
  | c :: cs => by
    simp only [splitNl]
    by_cases hc : c = nlChar
    · rw [if_pos hc]
      simp
    · rw [if_neg hc]
      cases splitNl cs <;> simp

theorem splitNl_append (buf : List Char) (hb : nlChar ∉ buf) (l : List Char) :
    ∀ p ps, splitNl l = p :: ps → splitNl (buf ++ l) = (buf ++ p) :: ps := by
  induction buf with
  | nil =>
    intro p ps h
    simpa using h
  | cons c cs ih =>
    intro p ps h
    have hc : ¬ c = nlChar := fun he => hb (by rw [← he]; exact List.mem_cons_self c cs)
    have hcs : nlChar ∉ cs := fun hm => hb (List.mem_cons_of_mem c hm)
    have hr := ih hcs p ps h
    show splitNl (c :: (cs ++ l)) = (c :: (cs ++ p)) :: ps
    simp only [splitNl]
    rw [hr, if_neg hc]

theorem foldl_feedChar_buf {σ : Type} (h : σ → List Char → σ) :
    ∀ (c : List Char) (st : σ × List Char), nlChar ∉ st.2 →
      nlChar ∉ (c.foldl (feedChar h) st).2 := by
  intro c
  induction c with
  | nil =>
    intro st hb
    exact hb
  | cons x xs ih =>
    intro st hb
    rw [List.foldl_cons]
    by_cases hx : x = nlChar
    · subst hx
      apply ih
      have hfc : feedChar h st nlChar = (h st.1 st.2, []) := by
        unfold feedChar
        rw [if_pos rfl]
      rw [hfc]
      simp
    · apply ih
      have hfc : feedChar h st x = (st.1, st.2 ++ [x]) := by
        unfold feedChar
        rw [if_neg hx]
      rw [hfc]
      simp only []
      intro hm
      rcases List.mem_append.mp hm with h1 | h2
      · exact hb h1
      · exact hx (List.mem_singleton.mp h2).symm

theorem foldl_feedChar_no_nl {σ : Type} (h : σ → List Char → σ) :
    ∀ (l : List Char), nlChar ∉ l → ∀ st : σ × List Char,
      l.foldl (feedChar h) st = (st.1, st.2 ++ l) := by
  intro l
  induction l with
  | nil =>
    intro _ st
    rw [List.foldl_nil, List.append_nil]
  | cons x xs ih =>
    intro hnl st
    rw [List.foldl_cons]
    have hx : ¬ x = nlChar := fun he => hnl (by rw [← he]; exact List.mem_cons_self x xs)
    have hfc : feedChar h st x = (st.1, st.2 ++ [x]) := by
      unfold feedChar
      rw [if_neg hx]
    rw [hfc, ih (fun hm => hnl (List.mem_cons_of_mem x hm)) (st.1, st.2 ++ [x])]
    simp only []
    rw [List.append_assoc]
    rfl

theorem feedChunk_eq_foldl {σ : Type} (h : σ → List Char → σ) :
    ∀ (c : List Char) (st : σ × List Char), nlChar ∉ st.2 →
      feedChunk h st c = c.foldl (feedChar h) st := by
  intro c
  induction c with
  | nil =>
    intro st hb
    obtain ⟨s, buf⟩ := st
    have hs' : splitNl buf = [buf] := by
      have h0 := splitNl_append buf hb [] [] [] rfl
      rwa [List.append_nil] at h0
    show feedChunk h (s, buf) [] = (s, buf)
    simp only [feedChunk]
    rw [List.append_nil, hs']
    rfl
  | cons x xs ih =>
    intro st hb
    obtain ⟨s, buf⟩ := st
    by_cases hx : x = nlChar
    · subst hx
      have h1 : splitNl (nlChar :: xs) = [] :: splitNl xs := by
        simp [splitNl]
      have h2 : splitNl (buf ++ nlChar :: xs) = buf :: splitNl xs := by
        have h0 := splitNl_append buf hb (nlChar :: xs) [] (splitNl xs) h1
        rwa [List.append_nil] at h0
      obtain ⟨p, ps, hps⟩ := List.exists_cons_of_ne_nil (splitNl_ne_nil xs)
      show feedChunk h (s, buf) (nlChar :: xs) = (nlChar :: xs).foldl (feedChar h) (s, buf)
      rw [List.foldl_cons]
      have hfc : feedChar h (s, buf) nlChar = (h s buf, []) := by
        unfold feedChar
        rw [if_pos rfl]
      rw [hfc, ← ih (h s buf, []) (by simp)]
      simp only [feedChunk]
      rw [h2, hps, show ([] : List Char) ++ xs = xs from rfl, hps,
        List.getLast?_cons_cons]
      rfl
    · show feedChunk h (s, buf) (x :: xs) = (x :: xs).foldl (feedChar h) (s, buf)
      rw [List.foldl_cons]
      have hfc : feedChar h (s, buf) x = (s, buf ++ [x]) := by
        unfold feedChar
        rw [if_neg hx]
      rw [hfc, ← ih (s, buf ++ [x]) (by
        simp only []
        intro hm
        rcases List.mem_append.mp hm with h1 | h2
        · exact hb h1
        · exact hx (List.mem_singleton.mp h2).symm)]
      simp only [feedChunk]
      rw [show buf ++ x :: xs = (buf ++ [x]) ++ xs from by rw [List.append_cons]]

theorem foldl_feedChunk_eq {σ : Type} (h : σ → List Char → σ) :
    ∀ (chunks : List (List Char)) (st : σ × List Char), nlChar ∉ st.2 →
      chunks.foldl (feedChunk h) st = (chunks.flatten).foldl (feedChar h) st := by
  intro chunks
  induction chunks with
  | nil =>
    intro st _
    rfl
  | cons c cs ih =>
    intro st hb
    rw [List.foldl_cons, feedChunk_eq_foldl h c st hb,
      ih _ (foldl_feedChar_buf h c st hb),
      show (c :: cs).flatten = c ++ cs.flatten from rfl, List.foldl_append]

theorem runStream_eq_foldl {σ : Type} (h : σ → List Char → σ) (s0 : σ)
    (chunks : List (List Char)) :
    runStream h s0 chunks = (chunks.flatten).foldl (feedChar h) (s0, []) := by
  unfold runStream
  exact foldl_feedChunk_eq h chunks (s0, []) (by simp)

theorem runStream_buf_no_nl {σ : Type} (h : σ → List Char → σ) (s0 : σ)
    (cs : List (List Char)) : nlChar ∉ (runStream h s0 cs).2 := by
  rw [runStream_eq_foldl]
  exact foldl_feedChar_buf h _ _ (by simp)

theorem runStream_append_one {σ : Type} (h : σ → List Char → σ) (s0 : σ)
    (cs : List (List Char)) (c : List Char) :
    runStream h s0 (cs ++ [c]) = feedChunk h (runStream h s0 cs) c := by
  unfold runStream
  rw [List.foldl_append]
  rfl

/-- C10: the streamed-event parser is invariant to chunk boundaries: closing
a stream fed through any chunking of the same data yields the same state;
a blank line, or a line the decoder rejects, leaves the accepted-event list
unchanged (so later lines are processed as if it were absent); a decoded
non-blank line appends exactly one event; and a final line lacking a
trailing newline is still handed to the line processor on close, with the
same outcome as if the newline had arrived. -/
theorem stream_chunk_boundary_invariance {ε : Type} (g : List Char → Option ε)
    (acc0 : List ε) :
    (∀ chunks chunks' : List (List Char), chunks.flatten = chunks'.flatten →
      runStreamClosed (jsProcessLine g) acc0 chunks =
        runStreamClosed (jsProcessLine g) acc0 chunks') ∧
    (∀ (acc : List ε) (l : List Char), isBlankLine l = true ∨ g l = none →
      jsProcessLine g acc l = acc) ∧
    (∀ (acc : List ε) (l : List Char) (e : ε), isBlankLine l = false → g l = some e →
      jsProcessLine g acc l = acc ++ [e]) ∧
    (∀ (cs : List (List Char)) (l : List Char), nlChar ∉ l →
      isBlankLine ((runStream (jsProcessLine g) acc0 cs).2 ++ l) = false →
      runStreamClosed (jsProcessLine g) acc0 (cs ++ [l]) =
        jsProcessLine g (runStream (jsProcessLine g) acc0 cs).1
          ((runStream (jsProcessLine g) acc0 cs).2 ++ l) ∧
      runStreamClosed (jsProcessLine g) acc0 (cs ++ [l]) =
        runStreamClosed (jsProcessLine g) acc0 (cs ++ [l ++ [nlChar]])) := by
  refine ⟨?_, ?_, ?_, ?_⟩
  · intro chunks chunks' hj
    unfold runStreamClosed
    rw [runStream_eq_foldl, runStream_eq_foldl, hj]
  · intro acc l hl
    unfold jsProcessLine
    rcases hl with hb | hg
    · rw [if_pos hb]
    · by_cases hb : isBlankLine l = true
      · rw [if_pos hb]
      · rw [if_neg hb, hg]
  · intro acc l e hb hg
    unfold jsProcessLine
    simp only [hb, Bool.false_eq_true, if_false, hg]
  · intro cs l hnl hbl
    have hbuf := runStream_buf_no_nl (jsProcessLine g) acc0 cs
    have hfirst : runStreamClosed (jsProcessLine g) acc0 (cs ++ [l]) =
        jsProcessLine g (runStream (jsProcessLine g) acc0 cs).1
          ((runStream (jsProcessLine g) acc0 cs).2 ++ l) := by
      unfold runStreamClosed
      rw [runStream_append_one, feedChunk_eq_foldl _ l _ hbuf,
        foldl_feedChar_no_nl _ l hnl _]
      unfold closeStream
      simp only []
      simp only [hbl, Bool.false_eq_true, if_false]
    have hsecond : runStreamClosed (jsProcessLine g) acc0 (cs ++ [l ++ [nlChar]]) =
        jsProcessLine g (runStream (jsProcessLine g) acc0 cs).1
          ((runStream (jsProcessLine g) acc0 cs).2 ++ l) := by
      unfold runStreamClosed
      rw [runStream_append_one, feedChunk_eq_foldl _ (l ++ [nlChar]) _ hbuf,
        List.foldl_append, foldl_feedChar_no_nl _ l hnl _]
      have hstep : [nlChar].foldl (feedChar (jsProcessLine g))
          ((runStream (jsProcessLine g) acc0 cs).1,
            (runStream (jsProcessLine g) acc0 cs).2 ++ l)
          = (jsProcessLine g (runStream (jsProcessLine g) acc0 cs).1
              ((runStream (jsProcessLine g) acc0 cs).2 ++ l), []) := by
        rw [List.foldl_cons, List.foldl_nil]
        unfold feedChar
        rw [if_pos rfl]
      rw [hstep]
      unfold closeStream
      simp only []
      rw [if_pos (show isBlankLine ([] : List Char) = true from rfl)]
    exact ⟨hfirst, hfirst.trans hsecond.symm⟩

/-- Witness for C10: under a decoder accepting exactly the line `e`, two
chunkings of the same data agree, a blank line and an undecodable boundary
leave the events unchanged, a decoded line appends one event, and the
unterminated final line `e` yields the same events as its terminated
form. -/
theorem stream_chunk_boundary_invariance_witness :
    runStreamClosed (jsProcessLine gE) [] [['e'], [nlChar, 'e']] =
      runStreamClosed (jsProcessLine gE) [] [['e', nlChar, 'e']] ∧
    jsProcessLine gE [] [] = [] ∧
    jsProcessLine gE [StreamEvent.otherEvent] ['e'] =
      [StreamEvent.otherEvent, StreamEvent.otherEvent] ∧
    runStreamClosed (jsProcessLine gE) [] [['e', nlChar], ['e']] =
      runStreamClosed (jsProcessLine gE) [] [['e', nlChar], ['e', nlChar]] := by
  obtain ⟨h1, h2, h3, h4⟩ := stream_chunk_boundary_invariance gE []
  refine ⟨h1 _ _ (by decide), h2 [] [] (Or.inl (by decide)), ?_, ?_⟩
  · exact h3 [StreamEvent.otherEvent] ['e'] StreamEvent.otherEvent (by decide) (by decide)
  · exact (h4 [['e', nlChar]] ['e'] (by decide) (by decide)).2

end Subagent
